import Mathlib

/-!
Verification of the Scripture Reference Resolution & Content Ingestion Engine.

This file gives a shallow embedding of the engine's core functions — the
corpus importer (`performBatchImport`, `importFromJson`, the XML decoders
and `processBibleBuffer`), the autocomplete and smart-transform functions, the
incremental keystroke validator, and a model of the reference parser — and
proves or refutes the specified properties about them.

Strings are manipulated through small JavaScript-faithful helpers (split on
whitespace runs, `parseInt` semantics, truthiness of `||` chains, spread
override semantics), written over `List Char` so that the proofs can proceed by
ordinary list induction.  The persistent store is modelled as three record
lists with the delete/put/bulk-insert operations the importer issues, applied
in the order the source issues them.
-/

namespace Present

/-- Whitespace test used for the regex class in the source patterns. -/
def isWs (c : Char) : Bool := c.isWhitespace

/-- Dropping a prefix cannot lengthen a list; used for termination. -/
theorem lenDropWhileLe {α} (p : α → Bool) :
    (l : List α) → (l.dropWhile p).length ≤ l.length
  | [] => Nat.le_refl _
  | a :: l => by
    simp only [List.dropWhile]
    split
    · exact Nat.le_succ_of_le (lenDropWhileLe p l)
    · exact Nat.le_refl _

mutual
/-- Whitespace splitting, reading a group: the reversed current group is in
`acc`; a whitespace character ends the group and enters the separator run. -/
def splitWsGo : List Char → List Char → List String
  | [], acc => [String.mk acc.reverse]
  | c :: rest, acc =>
    if isWs c then String.mk acc.reverse :: splitWsSkip rest
    else splitWsGo rest (c :: acc)
/-- Whitespace splitting, consuming a separator run; a run reaching the end
of the input contributes a trailing empty group. -/
def splitWsSkip : List Char → List String
  | [] => [""]
  | c :: rest => if isWs c then splitWsSkip rest else splitWsGo rest [c]
end

/-- Splitting on runs of whitespace, mirroring JavaScript `s.split(/\s+/)`:
a leading run yields a leading empty group and a trailing run a trailing
empty group. -/
def jsSplitWs (s : String) : List String := splitWsGo s.data []

/-- JavaScript `s.trimStart()`. -/
def jsTrimStart (s : String) : String :=
  String.mk (s.data.dropWhile isWs)

/-- JavaScript `s.trim()`. -/
def jsTrim (s : String) : String :=
  String.mk (((s.data.dropWhile isWs).reverse.dropWhile isWs).reverse)

/-- JavaScript `s.toLowerCase()` for the ASCII strings this engine handles. -/
def toLowerStr (s : String) : String := String.mk (s.data.map Char.toLower)

/-- JavaScript `s.toUpperCase()` for the ASCII strings this engine handles. -/
def toUpperStr (s : String) : String := String.mk (s.data.map Char.toUpper)

/-- Decimal value of a digit list. -/
def digitsToNat (ds : List Char) : Nat :=
  ds.foldl (fun acc c => acc * 10 + (c.toNat - '0'.toNat)) 0

/-- JavaScript `parseInt(s, 10)` on the non-negative inputs the engine feeds
it: skip leading whitespace, read a maximal digit run, `none` models `NaN`. -/
def parseIntJS (s : String) : Option Nat :=
  let t := s.data.dropWhile isWs
  let ds := t.takeWhile Char.isDigit
  if ds.isEmpty then none else some (digitsToNat ds)

/-- Template-literal rendering of a number that may be `NaN`. -/
def numToStr : Option Nat → String
  | some n => toString n
  | none => "NaN"

/-- JavaScript `s.replace(/[_-]/g, " ")`. -/
def replaceSepWithSpace (s : String) : String :=
  String.mk (s.data.map (fun c => if c = '_' || c = '-' then ' ' else c))

mutual
/-- Hyphen collapsing outside a whitespace run. -/
def collapseGo : List Char → List Char
  | [] => []
  | c :: rest =>
    if isWs c then '-' :: collapseSkip rest else c :: collapseGo rest
/-- Hyphen collapsing inside a whitespace run (already emitted its hyphen). -/
def collapseSkip : List Char → List Char
  | [] => []
  | c :: rest => if isWs c then collapseSkip rest else c :: collapseGo rest
end

/-- JavaScript `s.replace(/\s+/g, "-")`: each whitespace run becomes one
hyphen. -/
def collapseWsToHyphen (s : String) : String := String.mk (collapseGo s.data)

/-- JavaScript `s.replace(/\s+/g, "")`. -/
def removeWs (s : String) : String :=
  String.mk (s.data.filter (fun c => !isWs c))

/-- Containment of `needle` in `hay`, as JavaScript `hay.includes(needle)`. -/
def containsSub (hay needle : List Char) : Bool :=
  match hay with
  | [] => needle.isEmpty
  | _ :: t => needle.isPrefixOf hay || containsSub t needle

/-- String wrapper for `containsSub`. -/
def strContains (hay needle : String) : Bool := containsSub hay.data needle.data

/-- JavaScript `s.startsWith(p)`. -/
def strStartsWith (s p : String) : Bool := p.data.isPrefixOf s.data

/-- JavaScript `s.endsWith(p)`. -/
def strEndsWith (s p : String) : Bool := p.data.isSuffixOf s.data

/-- JavaScript `s.endsWith(" ")`, the check the input components make. -/
def jsEndsWithSpace (s : String) : Bool := s.data.getLast? == some ' '

/-- JavaScript `a || b` over nullable strings, where `null` and `""` are falsy. -/
def jsOrS (a b : Option String) : Option String :=
  match a with
  | some s => if s = "" then b else some s
  | none => b

/-- JavaScript `a || b` with a plain-string default. -/
def jsOrStr (a : Option String) (b : String) : String :=
  (jsOrS a (some b)).getD b

/-- Truthiness of a nullable string. -/
def truthyS : Option String → Bool
  | some s => s ≠ ""
  | none => false

/-- JavaScript `s.split(sep)` for a one-character separator; never empty. -/
def splitOnCharCore (sep : Char) : List Char → List (List Char)
  | [] => [[]]
  | c :: rest =>
    if c = sep then [] :: splitOnCharCore sep rest
    else
      match splitOnCharCore sep rest with
      | [] => [[c]]
      | g :: gs => (c :: g) :: gs

/-- String wrapper for `splitOnCharCore`. -/
def splitOnChar (sep : Char) (s : String) : List String :=
  (splitOnCharCore sep s.data).map String.mk

/-- Rounding of a non-negative ratio `num / den` as JavaScript `Math.round`. -/
def jsRound (num den : Nat) : Nat := (2 * num + den) / (2 * den)

/-- Version record shape committed to the store (`BibleVersion` in `db`). -/
structure BibleVersion where
  id : String
  name : String
  code : String
  lastUpdated : Nat
  size : Nat
deriving Repr, DecidableEq

/-- Book record shape committed to the store (`BibleBookRecord` in `db`). -/
structure BibleBookRecord where
  pk : String
  version : String
  id : String
  name : String
  abbreviation : String
  chapters : Nat
deriving Repr, DecidableEq

/-- Verse record shape committed to the store (`BibleVerse` in `db`).
`chapter`/`verse` are `Option Nat` so that a failed `parseInt` (`NaN`) is
representable, as the OSIS decoder can produce it. -/
structure BibleVerse where
  pk : String
  version : String
  bookId : String
  bookName : String
  chapter : Option Nat
  verse : Option Nat
  text : String
deriving Repr, DecidableEq

/-- Progress phases reported by the ingestion pipeline. -/
inductive ImportPhase
  | downloading
  | unzipping
  | parsing
  | importing
deriving Repr, DecidableEq

/-- Progress event shape. -/
structure ImportProgress where
  phase : ImportPhase
  percent : Nat
deriving Repr, DecidableEq

/-- Store mutations the importer can issue within its transaction. -/
inductive Op where
  | putVersion (v : BibleVersion)
  | deleteBooksOfVersion (vid : String)
  | deleteVersesOfVersion (vid : String)
  | bulkAddBooks (bs : List BibleBookRecord)
  | bulkAddVerses (vs : List BibleVerse)
deriving Repr, DecidableEq

/-- Batch size used by `performBatchImport`. -/
def BATCH_SIZE : Nat := 500

/-- Store operations and progress events issued by `performBatchImport`, in
issue order: put the version record, delete the version's books then verses,
bulk-insert books when any exist, then insert verses in slices of
`BATCH_SIZE`, one `importing` event per slice. -/
def performBatchImport (version : BibleVersion) (verses : List BibleVerse)
    (books : List BibleBookRecord) : List Op × List ImportProgress :=
  let totalBatches := (verses.length + BATCH_SIZE - 1) / BATCH_SIZE
  let base := [Op.putVersion version, Op.deleteBooksOfVersion version.id,
               Op.deleteVersesOfVersion version.id]
    ++ (if books.length > 0 then [Op.bulkAddBooks books] else [])
  let batchOps := (List.range totalBatches).map
    (fun i => Op.bulkAddVerses ((verses.drop (i * BATCH_SIZE)).take BATCH_SIZE))
  let events := (List.range totalBatches).map
    (fun i => ⟨ImportPhase.importing, jsRound ((i + 1) * 100) totalBatches⟩)
  (base ++ batchOps, events)

/-- Grouping of a list into consecutive blocks of `BATCH_SIZE`. -/
def chunks500 : List BibleVerse → List (List BibleVerse)
  | [] => []
  | v :: rest =>
    ((v :: rest).take BATCH_SIZE) :: chunks500 ((v :: rest).drop BATCH_SIZE)
termination_by l => l.length
decreasing_by
  simp only [List.length_drop, List.length_cons, BATCH_SIZE]
  omega

/-- Store contents: the three tables the import transaction touches. -/
structure StoreState where
  versions : List BibleVersion
  books : List BibleBookRecord
  verses : List BibleVerse
deriving Repr, DecidableEq

/-- Effect of one store operation: `put` replaces by primary key, the deletes
filter by the `version` index, bulk inserts append. -/
def applyOp (s : StoreState) : Op → StoreState
  | .putVersion v =>
      { s with versions := s.versions.filter (fun w => w.id ≠ v.id) ++ [v] }
  | .deleteBooksOfVersion vid =>
      { s with books := s.books.filter (fun b => b.version ≠ vid) }
  | .deleteVersesOfVersion vid =>
      { s with verses := s.verses.filter (fun r => r.version ≠ vid) }
  | .bulkAddBooks bs => { s with books := s.books ++ bs }
  | .bulkAddVerses vs => { s with verses := s.verses ++ vs }

/-- Sequential application of a mutation trace. -/
def applyOps (s : StoreState) (ops : List Op) : StoreState := ops.foldl applyOp s

/-- Version records stored under an id. -/
def versionsFor (s : StoreState) (vid : String) : List BibleVersion :=
  s.versions.filter (fun v => v.id = vid)

/-- Book records stored under a version id. -/
def booksFor (s : StoreState) (vid : String) : List BibleBookRecord :=
  s.books.filter (fun b => b.version = vid)

/-- Verse records stored under a version id. -/
def versesFor (s : StoreState) (vid : String) : List BibleVerse :=
  s.verses.filter (fun r => r.version = vid)

/-- Lookup of a verse by its `(bookId, chapter, verse)` key within a version. -/
def getVerse (s : StoreState) (vid bookId : String) (c v : Option Nat) :
    Option BibleVerse :=
  s.verses.find? (fun r =>
    r.version == vid && r.bookId == bookId && r.chapter == c && r.verse == v)

/-- Optional `version` object of a JSON source document. -/
structure JsonVersionObj where
  idField : Option String := none
  nameField : Option String := none
  codeField : Option String := none
deriving Repr, DecidableEq

/-- One row of a JSON document's `verses` array.  `pkField`/`versionField`
model a row that carries its own `pk`/`version` properties, which the object
spread in the source lets override the computed ones. -/
structure JsonVerseRow where
  bookId : String
  chapter : Nat
  verse : Nat
  text : String
  bookName : String := ""
  pkField : Option String := none
  versionField : Option String := none
deriving Repr, DecidableEq

/-- A decoded JSON source document. -/
structure JsonDoc where
  version : Option JsonVersionObj := none
  verses : List JsonVerseRow
  books : Option (List BibleBookRecord) := none
deriving Repr, DecidableEq

/-- Verse record built by `importFromJson` for one source row: the computed
`pk` and `version` are assigned first and the row's own fields are then
spread over them, so a row's own `pk`/`version` properties take precedence. -/
def mkJsonVerse (vid : String) (r : JsonVerseRow) : BibleVerse :=
  { pk := r.pkField.getD
      (vid ++ "|" ++ r.bookId ++ "|" ++ toString r.chapter ++ "|" ++ toString r.verse)
    version := r.versionField.getD vid
    bookId := r.bookId
    bookName := r.bookName
    chapter := some r.chapter
    verse := some r.verse
    text := r.text }

/-- Result of a decoder run: the canonical records plus the trace it issues. -/
structure ImportRun where
  version : BibleVersion
  verses : List BibleVerse
  books : List BibleBookRecord
  ops : List Op
  events : List ImportProgress
deriving Repr, DecidableEq

/-- First segment of a file name, as `defaultName.split(".")[0]`. -/
def fileNameBaseOf (defaultName : String) : String :=
  (splitOnChar '.' defaultName).headD ""

/-- The JSON decoder: version naming from the document or the file name,
verse rows stamped (then spread) with the computed version id, books passed
through, then the batch import. -/
def importFromJson (doc : JsonDoc) (contentLength : Nat) (defaultName : String)
    (now : Nat) : ImportRun :=
  let fileNameBase := fileNameBaseOf defaultName
  let bibleName := jsOrStr (doc.version.bind (·.nameField))
    (replaceSepWithSpace fileNameBase)
  let baseId := jsOrStr (doc.version.bind (·.idField))
    (collapseWsToHyphen (toLowerStr bibleName))
  let version : BibleVersion :=
    { id := baseId
      name := bibleName
      code := jsOrStr (doc.version.bind (·.codeField)) ""
      lastUpdated := now
      size := contentLength }
  let verses := doc.verses.map (mkJsonVerse version.id)
  let books := doc.books.getD []
  let run := performBatchImport version verses books
  { version := version, verses := verses, books := books, ops := run.1,
    events := ⟨ImportPhase.parsing, 100⟩ :: run.2 }

/-- Store state after running the JSON import against a store. -/
def jsonImportState (s : StoreState) (doc : JsonDoc) (contentLength : Nat)
    (defaultName : String) (now : Nat) : StoreState :=
  applyOps s (importFromJson doc contentLength defaultName now).ops

/-- Known version codes checked against file names, in source order (longer
or more specific codes placed before some of their substrings). -/
def KNOWN_BIBLE_VERSIONS : List String :=
  ["NRSVCE", "NRSVA", "NRSV", "NKJV", "TNIV", "AMPC", "HCSB", "NIrV",
   "NABRE", "RSVCE",
   "KJV", "NIV", "ESV", "NASB", "NLT", "RSV", "AMP", "MSG", "CSB", "NCV",
   "GNT", "CEV", "TPT",
   "VOICE", "TLB", "PHILLIPS", "MOUNCE",
   "NET", "ISV", "LEB", "WEB", "ASV", "YLT", "DARBY", "AKJV", "RV", "ERV",
   "BBE",
   "DRA", "JB", "NJB",
   "GW", "JUB", "MEV", "NOG", "TLV", "CEB", "CJB", "EHV", "GNV", "ICB",
   "NLV",
   "BSB", "BRG", "EASY", "EXB"]

/-- Dictionary step of version-code resolution: the first entry of
`KNOWN_BIBLE_VERSIONS` that is a substring of the uppercased file name. -/
def versionCodeFromFilename (fileNameBase : String) : Option String :=
  let upperFileName := toUpperStr fileNameBase
  KNOWN_BIBLE_VERSIONS.find? (fun v => strContains upperFileName (toUpperStr v))

/-- Version-code resolution shared by both XML decoders: explicit metadata,
then the file-name dictionary, then a short file name verbatim, then the
first three characters of the resolved name. -/
def resolveBibleCode (explicitCode : Option String)
    (fileNameBase bibleName : String) : String :=
  match jsOrS explicitCode none with
  | some c => c
  | none =>
    match versionCodeFromFilename fileNameBase with
    | some found => toUpperStr found
    | none =>
      if 2 ≤ fileNameBase.length ∧ fileNameBase.length ≤ 5 then
        toUpperStr fileNameBase
      else (toUpperStr bibleName).take 3

/-- Generic parsed XML tree: element nodes with a tag, attributes and
children, plus text nodes — the "parsed document tree" the decoders walk. -/
inductive XmlNode where
  | elem (tag : String) (attrs : List (String × String)) (children : List XmlNode)
  | txt (s : String)
deriving Repr

/-- Attribute lookup in an attribute list; `none` models `null`. -/
def attrGet (attrs : List (String × String)) (name : String) : Option String :=
  (attrs.find? (fun a => a.1 == name)).map (·.2)

/-- DOM `getAttribute`. -/
def getAttr : XmlNode → String → Option String
  | .elem _ attrs _, name => attrGet attrs name
  | .txt _, _ => none

/-- DOM `hasAttribute`. -/
def hasAttr (n : XmlNode) (name : String) : Bool := (getAttr n name).isSome

/-- Tag name of a node, empty for text nodes. -/
def tagOf : XmlNode → String
  | .elem t _ _ => t
  | .txt _ => ""

/-- Child list of a node. -/
def childrenOf : XmlNode → List XmlNode
  | .elem _ _ ch => ch
  | .txt _ => []

mutual
/-- DOM `textContent`: concatenated text of all descendants. -/
def textContent : XmlNode → String
  | .txt s => s
  | .elem _ _ ch => textContentList ch
/-- Concatenated text content of a node list. -/
def textContentList : List XmlNode → String
  | [] => ""
  | n :: rest => textContent n ++ textContentList rest
end

mutual
/-- A node together with its element descendants in document order for an
element node, nothing for a text node. -/
def selfAndDescendants : XmlNode → List XmlNode
  | .txt _ => []
  | .elem t a ch => XmlNode.elem t a ch :: descendantsList ch
/-- Elements of a node list and their element descendants, in document
order (pre-order), text nodes skipped. -/
def descendantsList : List XmlNode → List XmlNode
  | [] => []
  | n :: rest => selfAndDescendants n ++ descendantsList rest
end

/-- Element descendants of a node, the node excluded; models a
`querySelectorAll` search inside an element. -/
def descendants (n : XmlNode) : List XmlNode := descendantsList (childrenOf n)

/-- Document-level element search, the root element included, as
`document.getElementsByTagName` and document `querySelectorAll` do. -/
def docElems (root : XmlNode) : List XmlNode := descendantsList [root]

mutual
/-- Matching descendants strictly inside one node, with their following
siblings. -/
def withTailInner (p : XmlNode → Bool) : XmlNode → List (XmlNode × List XmlNode)
  | .txt _ => []
  | .elem _ _ ch => withTailL p ch
/-- Matching elements of a node list and of their descendants, each paired
with the sibling list that follows it — the context the milestone walk
needs. -/
def withTailL (p : XmlNode → Bool) :
    List XmlNode → List (XmlNode × List XmlNode)
  | [] => []
  | n :: rest =>
    (if p n then [(n, rest)] else []) ++
      (withTailInner p n ++ withTailL p rest)
end

/-- Matching descendants of a node with their following siblings. -/
def withTailN (p : XmlNode → Bool) (n : XmlNode) :
    List (XmlNode × List XmlNode) :=
  withTailL p (childrenOf n)

/-- Serialization of an attribute list. -/
def serializeAttrs (attrs : List (String × String)) : String :=
  attrs.foldl (fun acc a => acc ++ " " ++ a.1 ++ "=" ++ a.2) ""

mutual
/-- Plain serialization of a node, standing in for `XMLSerializer`; only its
length feeds the version record's `size`. -/
def serializeXml : XmlNode → String
  | .txt s => s
  | .elem t attrs ch =>
    "<" ++ t ++ serializeAttrs attrs ++ ">" ++ serializeXmlList ch
      ++ "</" ++ t ++ ">"
/-- Serialization of a child list. -/
def serializeXmlList : List XmlNode → String
  | [] => ""
  | n :: rest => serializeXml n ++ serializeXmlList rest
end

/-- Case-insensitive tag-set test, as
`tags.includes(el.tagName.toLowerCase())`. -/
def tagIn (n : XmlNode) (tags : List String) : Bool :=
  tags.contains (toLowerStr (tagOf n))

/-- Canonical 66-book Protestant ordering used when a simple-XML book node
carries only a numeric attribute. -/
def standardBooks : List String :=
  ["Genesis", "Exodus", "Leviticus", "Numbers", "Deuteronomy", "Joshua",
   "Judges", "Ruth", "1 Samuel", "2 Samuel", "1 Kings", "2 Kings",
   "1 Chronicles", "2 Chronicles", "Ezra", "Nehemiah", "Esther", "Job",
   "Psalms", "Proverbs", "Ecclesiastes", "Song of Solomon", "Isaiah",
   "Jeremiah", "Lamentations", "Ezekiel", "Daniel", "Hosea", "Joel", "Amos",
   "Obadiah", "Jonah", "Micah", "Nahum", "Habakkuk", "Zephaniah", "Haggai",
   "Zechariah", "Malachi", "Matthew", "Mark", "Luke", "John", "Acts",
   "Romans", "1 Corinthians", "2 Corinthians", "Galatians", "Ephesians",
   "Philippians", "Colossians", "1 Thessalonians", "2 Thessalonians",
   "1 Timothy", "2 Timothy", "Titus", "Philemon", "Hebrews", "James",
   "1 Peter", "2 Peter", "1 John", "2 John", "3 John", "Jude", "Revelation"]

/-- Book-name resolution for one simple-XML book node: name-like attributes
first, else a numeric `number`/`bnumber` attribute mapped through
`standardBooks`; empty when neither resolves. -/
def simpleBookName (bookNode : XmlNode) : String :=
  let fromAttrs := jsOrStr (jsOrS (jsOrS (jsOrS (getAttr bookNode "name")
    (getAttr bookNode "title")) (getAttr bookNode "n"))
    (getAttr bookNode "bname")) ""
  if fromAttrs = "" &&
      truthyS (jsOrS (getAttr bookNode "number") (getAttr bookNode "bnumber"))
  then
    match parseIntJS (jsOrStr (jsOrS (getAttr bookNode "number")
      (getAttr bookNode "bnumber")) "0") with
    | some bookNum =>
      if 0 < bookNum && bookNum ≤ 66 then standardBooks.getD (bookNum - 1) ""
      else ""
    | none => ""
  else fromAttrs

/-- Chapter number of a simple-XML chapter node, `none` for `NaN`. -/
def simpleChapterNum (chapterNode : XmlNode) : Option Nat :=
  parseIntJS (jsOrStr (jsOrS (jsOrS (jsOrS (getAttr chapterNode "number")
    (getAttr chapterNode "number")) (getAttr chapterNode "n"))
    (getAttr chapterNode "cnumber")) "0")

/-- Running maximum of observed chapter numbers; `NaN` never raises it. -/
def jsMaxChapter (acc : Nat) : Option Nat → Nat
  | some c => if c > acc then c else acc
  | none => acc

/-- Verse records of one simple-XML chapter node: only children with a
verse-like tag, kept exactly when their raw text content is non-empty. -/
def simpleVersesOfChapter (vid bookId bookName : String)
    (chapterNum : Option Nat) (chapterNode : XmlNode) : List BibleVerse :=
  ((childrenOf chapterNode).filter
      (fun el => tagIn el ["verse", "v", "vers"])).filterMap
    (fun verseNode =>
      let verseNum := parseIntJS (jsOrStr (jsOrS (jsOrS (jsOrS
        (getAttr verseNode "number") (getAttr verseNode "number"))
        (getAttr verseNode "n")) (getAttr verseNode "vnumber")) "0")
      let text := textContent verseNode
      if text ≠ "" then
        some { pk := vid ++ "|" ++ bookId ++ "|" ++ numToStr chapterNum
                 ++ "|" ++ numToStr verseNum
               version := vid
               bookId := bookId
               bookName := bookName
               chapter := chapterNum
               verse := verseNum
               text := text }
      else none)

/-- Verses and the (possibly dropped) book record of one simple-XML book
node. -/
def simpleProcessBook (vid : String) (bookNode : XmlNode) :
    List BibleVerse × List BibleBookRecord :=
  let bookName := simpleBookName bookNode
  let bookAbbr := jsOrStr (jsOrS (getAttr bookNode "abbreviation")
    (getAttr bookNode "shortName")) ""
  let bookId := (removeWs (toLowerStr bookName)).take 8
  let chapterNodes := (childrenOf bookNode).filter
    (fun el => tagIn el ["chapter", "c"])
  let verses := chapterNodes.foldl
    (fun acc ch =>
      acc ++ simpleVersesOfChapter vid bookId bookName (simpleChapterNum ch) ch)
    []
  let maxChapter := chapterNodes.foldl
    (fun acc ch => jsMaxChapter acc (simpleChapterNum ch)) 0
  let books :=
    if bookName ≠ "" then
      [{ pk := vid ++ "|" ++ bookId
         version := vid
         id := bookId
         name := bookName
         abbreviation := bookAbbr
         chapters := maxChapter }]
    else []
  (verses, books)

/-- The simple-dialect XML decoder: version naming and code resolution from
root attributes or the file name, book nodes anywhere in the tree, then the
batch import. -/
def importFromSimpleXml (root : XmlNode) (defaultName : String) (now : Nat) :
    ImportRun :=
  let fileNameBase := fileNameBaseOf defaultName
  let name0 := jsOrStr (jsOrS (jsOrS (getAttr root "name")
    (getAttr root "title")) (getAttr root "n")) ""
  let bibleName :=
    if name0 = "" || toLowerStr name0 = "bible" then
      replaceSepWithSpace fileNameBase
    else name0
  let bibleId := collapseWsToHyphen (toLowerStr bibleName)
  let bibleCode := resolveBibleCode (jsOrS (jsOrS (getAttr root "abbreviation")
    (getAttr root "shortName")) (getAttr root "code")) fileNameBase bibleName
  let version : BibleVersion :=
    { id := bibleId
      name := bibleName
      code := toUpperStr bibleCode
      lastUpdated := now
      size := (serializeXml root).length }
  let bookNodes := (docElems root).filter
    (fun el => tagIn el ["book", "b", "biblebook"])
  let decoded := bookNodes.foldl
    (fun acc b =>
      let r := simpleProcessBook version.id b
      (acc.1 ++ r.1, acc.2 ++ r.2))
    ([], [])
  let run := performBatchImport version decoded.1 decoded.2
  { version := version, verses := decoded.1, books := decoded.2,
    ops := run.1, events := run.2 }

/-- OSIS book id to full name mapping. -/
def OSIS_BOOK_NAMES : List (String × String) :=
  [("Gen", "Genesis"), ("Exod", "Exodus"), ("Lev", "Leviticus"),
   ("Num", "Numbers"), ("Deut", "Deuteronomy"), ("Josh", "Joshua"),
   ("Judg", "Judges"), ("Ruth", "Ruth"), ("1Sam", "1 Samuel"),
   ("2Sam", "2 Samuel"), ("1Kgs", "1 Kings"), ("2Kgs", "2 Kings"),
   ("1Chr", "1 Chronicles"), ("2Chr", "2 Chronicles"), ("Ezra", "Ezra"),
   ("Neh", "Nehemiah"), ("Esth", "Esther"), ("Job", "Job"),
   ("Ps", "Psalms"), ("Prov", "Proverbs"), ("Eccl", "Ecclesiastes"),
   ("Song", "Song of Solomon"), ("Isa", "Isaiah"), ("Jer", "Jeremiah"),
   ("Lam", "Lamentations"), ("Ezek", "Ezekiel"), ("Dan", "Daniel"),
   ("Hos", "Hosea"), ("Joel", "Joel"), ("Amos", "Amos"),
   ("Obad", "Obadiah"), ("Jonah", "Jonah"), ("Mic", "Micah"),
   ("Nah", "Nahum"), ("Hab", "Habakkuk"), ("Zeph", "Zephaniah"),
   ("Hag", "Haggai"), ("Zech", "Zechariah"), ("Mal", "Malachi"),
   ("Matt", "Matthew"), ("Mark", "Mark"), ("Luke", "Luke"),
   ("John", "John"), ("Acts", "Acts"), ("Rom", "Romans"),
   ("1Cor", "1 Corinthians"), ("2Cor", "2 Corinthians"),
   ("Gal", "Galatians"), ("Eph", "Ephesians"), ("Phil", "Philippians"),
   ("Col", "Colossians"), ("1Thess", "1 Thessalonians"),
   ("2Thess", "2 Thessalonians"), ("1Tim", "1 Timothy"),
   ("2Tim", "2 Timothy"), ("Titus", "Titus"), ("Phlm", "Philemon"),
   ("Heb", "Hebrews"), ("Jas", "James"), ("1Pet", "1 Peter"),
   ("2Pet", "2 Peter"), ("1John", "1 John"), ("2John", "2 John"),
   ("3John", "3 John"), ("Jude", "Jude"), ("Rev", "Revelation")]

/-- Lookup in the OSIS book-name table. -/
def osisBookNameOf (abbr : String) : Option String :=
  (OSIS_BOOK_NAMES.find? (fun a => a.1 == abbr)).map (·.2)

/-- Milestone reconstruction: collected text of the siblings that follow a
start marker, stopping at the next verse element or at the sibling whose
`eID` equals the start marker's `sID`. -/
def collectMilestoneText (sid : String) : List XmlNode → String → String
  | [], acc => acc
  | .txt s :: rest, acc => collectMilestoneText sid rest (acc ++ s)
  | .elem tag attrs ch :: rest, acc =>
    if tag = "verse" &&
        ((attrGet attrs "osisID").isSome || (attrGet attrs "sID").isSome) then
      acc
    else if attrGet attrs "eID" == some sid then acc
    else
      collectMilestoneText sid rest (acc ++ textContent (.elem tag attrs ch))

/-- Processing of one OSIS verse element with its following siblings:
`osisID`/`sID` decomposition, self-contained or milestone text, running
chapter maximum, and retention only of verses with non-empty trimmed text. -/
def osisVerseStep (vid bookId bookName : String)
    (acc : List BibleVerse × Nat) (pr : XmlNode × List XmlNode) :
    List BibleVerse × Nat :=
  let vElem := pr.1
  let tail := pr.2
  let verseOsisID := jsOrStr (jsOrS (getAttr vElem "osisID")
    (getAttr vElem "sID")) ""
  let parts := splitOnChar '.' verseOsisID
  if parts.length ≥ 3 then
    let chapterNum := parseIntJS (parts.getD 1 "")
    let verseNum := parseIntJS (parts.getD 2 "")
    let text0 := textContent vElem
    let text :=
      if jsTrim text0 = "" && truthyS (getAttr vElem "sID") then
        collectMilestoneText ((getAttr vElem "sID").getD "") tail ""
      else text0
    let maxChapter := jsMaxChapter acc.2 chapterNum
    if jsTrim text ≠ "" then
      (acc.1 ++ [{ pk := vid ++ "|" ++ bookId ++ "|" ++ numToStr chapterNum
                     ++ "|" ++ numToStr verseNum
                   version := vid
                   bookId := bookId
                   bookName := bookName
                   chapter := chapterNum
                   verse := verseNum
                   text := jsTrim text }], maxChapter)
    else (acc.1, maxChapter)
  else acc

/-- Verse-element selection inside one OSIS book container: all `verse`
descendants, with the source's (subsumed) fallback to `verse[sID]` or
`verse[osisID]` when that finds nothing. -/
def osisVerseElements (bookDiv : XmlNode) : List (XmlNode × List XmlNode) :=
  let primary := withTailN (fun n => tagOf n == "verse") bookDiv
  if primary.isEmpty then
    withTailN (fun n => tagOf n == "verse" &&
      (hasAttr n "sID" || hasAttr n "osisID")) bookDiv
  else primary

/-- Verses and book record of one OSIS book container. -/
def osisProcessBook (vid : String) (bookDiv : XmlNode) :
    List BibleVerse × BibleBookRecord :=
  let osisID := (getAttr bookDiv "osisID").getD ""
  let bookAbbr := (splitOnChar '.' osisID).headD ""
  let bookName := jsOrStr (osisBookNameOf bookAbbr) bookAbbr
  let bookId := (removeWs (toLowerStr bookName)).take 8
  let r := (osisVerseElements bookDiv).foldl
    (osisVerseStep vid bookId bookName) ([], 0)
  (r.1,
   { pk := vid ++ "|" ++ bookId
     version := vid
     id := bookId
     name := bookName
     abbreviation := bookAbbr
     chapters := r.2 })

/-- Book-container selection for OSIS: `div[type=book]` anywhere, else any
`div[osisID]` whose id has no dot and is a known OSIS abbreviation. -/
def osisBookDivs (root : XmlNode) : List XmlNode :=
  let primary := (docElems root).filter
    (fun el => tagOf el == "div" && getAttr el "type" == some "book")
  if primary.isEmpty then
    (docElems root).filter (fun el =>
      tagOf el == "div" && hasAttr el "osisID" &&
      (let osisID := (getAttr el "osisID").getD ""
       osisID ≠ "" && !(strContains osisID ".") &&
         (osisBookNameOf osisID).isSome))
  else primary

/-- The OSIS decoder: metadata from the `work` element or the file name,
book containers, per-book verse extraction, then the batch import. -/
def importFromOsisXml (root : XmlNode) (defaultName : String) (now : Nat) :
    ImportRun :=
  let fileNameBase := fileNameBaseOf defaultName
  let osisWork := (docElems root).find? (fun el => tagOf el == "work")
  let name0 := jsOrStr (jsOrS (osisWork.bind (fun w => getAttr w "title"))
    ((osisWork.bind (fun w =>
        (descendants w).find? (fun el => tagOf el == "title"))).map
      textContent)) (replaceSepWithSpace fileNameBase)
  let bibleName :=
    if name0 = "" || toLowerStr name0 = "bible" then
      replaceSepWithSpace fileNameBase
    else name0
  let bibleId := collapseWsToHyphen (toLowerStr bibleName)
  let bibleCode := resolveBibleCode
    (jsOrS (osisWork.bind (fun w => getAttr w "abbreviation"))
      (osisWork.bind (fun w => getAttr w "identifier")))
    fileNameBase bibleName
  let version : BibleVersion :=
    { id := bibleId
      name := bibleName
      code := toUpperStr bibleCode
      lastUpdated := now
      size := (serializeXml root).length }
  let decoded := (osisBookDivs root).foldl
    (fun acc b =>
      let r := osisProcessBook version.id b
      (acc.1 ++ r.1, acc.2 ++ [r.2]))
    ([], [])
  let run := performBatchImport version decoded.1 decoded.2
  { version := version, verses := decoded.1, books := decoded.2,
    ops := run.1, events := run.2 }

/-- XML dispatch: an `osis` root goes to the OSIS decoder, anything else to
the simple decoder. -/
def importFromXml (root : XmlNode) (defaultName : String) (now : Nat) :
    ImportRun :=
  if toLowerStr (tagOf root) = "osis" then importFromOsisXml root defaultName now
  else importFromSimpleXml root defaultName now

/-- A raw input buffer observed through the two operations the pipeline
applies to it: archive extraction (`none` when `unzipSync` throws) and text
decoding of the raw bytes. -/
structure RawBuffer where
  unzipped : Option (List (String × String))
  asText : String

/-- Errors that abort the pipeline before any store operation. -/
inductive ImportError
  | jsonSyntax
deriving Repr, DecidableEq

/-- The ingestion pipeline after byte acquisition, parameterized by the
external JSON and DOM parsers: archive entry selection with fallback to the
raw bytes, JSON/XML dispatch on the chosen file name, and the resulting
store-mutation trace (or the decode error that aborted it). -/
def processBibleBuffer (jsonParse : String → Option JsonDoc)
    (parseDOM : String → XmlNode) (buf : RawBuffer)
    (originalFileName : Option String) (now : Nat) :
    Except ImportError (List Op) :=
  let viaZip : Option (String × String) :=
    match buf.unzipped with
    | some entries =>
      entries.find? (fun e =>
        strEndsWith e.1 ".json" || strEndsWith e.1 ".xml")
    | none => none
  let chosen : String × String :=
    match viaZip with
    | some (n, c) => (c, n)
    | none =>
      (buf.asText,
        jsOrStr originalFileName
          (if strStartsWith (jsTrim buf.asText) "\x7b" then "bible.json"
           else "bible.xml"))
  let fileContent := chosen.1
  let fileName := chosen.2
  if strEndsWith fileName ".json" then
    match jsonParse fileContent with
    | none => .error .jsonSyntax
    | some doc =>
      .ok (importFromJson doc fileContent.length fileName now).ops
  else .ok (importFromXml (parseDOM fileContent) fileName now).ops

/-- Prefix match of a lowercased query against a book's name, id, or
abbreviation — the book filter all three consumers share. -/
def bookMatches (q : String) (b : BibleBookRecord) : Bool :=
  strStartsWith (toLowerStr b.name) q || strStartsWith (toLowerStr b.id) q ||
    strStartsWith (toLowerStr b.abbreviation) q

/-- Books matching a (not yet lowercased) book phrase. -/
def matchingBooksFor (books : List BibleBookRecord) (bookStr : String) :
    List BibleBookRecord :=
  books.filter (bookMatches (toLowerStr bookStr))

/-- Stable insertion into a sorted list by a strict comparison. -/
def stableInsert {α} (lt : α → α → Bool) (a : α) : List α → List α
  | [] => [a]
  | b :: rest => if lt a b then a :: b :: rest else b :: stableInsert lt a rest

/-- Stable sort by a strict comparison, modelling the engine's stable
comparator sort. -/
def stableSort {α} (lt : α → α → Bool) (l : List α) : List α :=
  l.foldl (fun acc a => stableInsert lt a acc) []

/-- Book ranking: exact name-prefix matches first, then name order. -/
def bookLt (q : String) (a b : BibleBookRecord) : Bool :=
  let aStarts := strStartsWith (toLowerStr a.name) q
  let bStarts := strStartsWith (toLowerStr b.name) q
  if aStarts && !bStarts then true
  else if !aStarts && bStarts then false
  else a.name < b.name

/-- Collapse duplicate book names, keeping the first occurrence of each
name; `seen` is the set of names already emitted. -/
def dedupByNameGo (seen : List String) :
    List BibleBookRecord → List BibleBookRecord
  | [] => []
  | b :: rest =>
    if seen.contains b.name then dedupByNameGo seen rest
    else b :: dedupByNameGo (b.name :: seen) rest

/-- Collapse duplicate book names, keeping the first occurrence. -/
def dedupByName (l : List BibleBookRecord) : List BibleBookRecord :=
  dedupByNameGo [] l

/-- Distinct strings of a list with a seen-set accumulator (`new Set`). -/
def dedupStrGo (seen : List String) : List String → List String
  | [] => []
  | s :: rest =>
    if seen.contains s then dedupStrGo seen rest
    else s :: dedupStrGo (s :: seen) rest

/-- Distinct strings of a list, keeping first occurrences. -/
def dedupStr (l : List String) : List String := dedupStrGo [] l

/-- Bare-numeral test `/^[1-3]$/` for numbered book names. -/
def isNum123 (s : String) : Bool := s == "1" || s == "2" || s == "3"

/-- Suggestion categories. -/
inductive SuggestionType
  | book
  | chapter
  | verse
  | version
deriving Repr, DecidableEq

/-- One autocomplete suggestion. -/
structure Suggestion where
  text : String
  type : SuggestionType
  description : Option String := none
deriving Repr, DecidableEq

/-- The input up to and including its last space, as
`input.substring(0, input.lastIndexOf(" ") + 1)`. -/
def jsSubstrToLastSpace (s : String) : String :=
  String.mk ((s.data.reverse.dropWhile (fun c => c ≠ ' ')).reverse)

/-- The Suggestion Engine: book phase while the book phrase is still being
typed, version phase once a token follows the reference, verse phase on a
`:` token, chapter phase on a bare numeric token or a just-finished book. -/
def getSuggestions (input : String) (availableBooks : List BibleBookRecord)
    (availableVersions : List BibleVersion) : List Suggestion :=
  let trimInput := jsTrimStart input
  if trimInput = "" then []
  else
    let parts := jsSplitWs trimInput
    let useTwo := isNum123 (parts.headD "") && (parts.getD 1 "") ≠ ""
    let bookStr :=
      if useTwo then parts.headD "" ++ " " ++ parts.getD 1 ""
      else parts.headD ""
    let remaining := if useTwo then parts.drop 2 else parts.drop 1
    let matchedBooks := matchingBooksFor availableBooks bookStr
    if remaining.length == 0 && !(jsEndsWithSpace input) then
      let sorted := stableSort (bookLt (toLowerStr bookStr)) matchedBooks
      ((dedupByName sorted).take 5).map
        (fun b => { text := b.name, type := SuggestionType.book })
    else
      match matchedBooks.head? with
      | none => []
      | some book =>
        let doVersion := remaining.length ≥ 2 ||
          (remaining.length ≥ 1 && jsEndsWithSpace input)
        let versionSearch :=
          if remaining.length ≥ 2 then toLowerStr (remaining.getLastD "")
          else ""
        let vprefix :=
          if remaining.length ≥ 2 then jsSubstrToLastSpace input else input
        let vmatches := availableVersions.filter
          (fun v => strStartsWith (toLowerStr v.code) versionSearch)
        if doVersion && !vmatches.isEmpty then
          vmatches.map (fun v =>
            { text := vprefix ++ v.code, type := SuggestionType.version,
              description := some v.name })
        else
          let refPart := remaining.headD ""
          if strContains refPart ":" then
            let cv := splitOnChar ':' refPart
            let chapter := parseIntJS (cv.headD "")
            match cv[1]? with
            | some verseStr =>
              if strContains verseStr "-" then []
              else
                let startVerse :=
                  match parseIntJS verseStr with
                  | some pv => if pv > 0 then pv else 1
                  | none => 1
                (List.range 5).map (fun i =>
                  { text := book.name ++ " " ++ numToStr chapter ++ ":"
                      ++ toString (startVerse + i),
                    type := SuggestionType.verse })
            | none => []
          else if refPart ≠ "" then
            match parseIntJS refPart with
            | some chapterSearch =>
              ((List.range 5).map (fun i =>
                { text := book.name ++ " " ++ toString chapterSearch
                    ++ (if i = 0 then "" else toString i),
                  type := SuggestionType.chapter })).take 5
            | none => []
          else if jsEndsWithSpace input then
            [{ text := book.name ++ " 1", type := SuggestionType.chapter }]
          else []

/-- Smart Transform: rewrite `Book Chapter ` into `Book Chapter:`, matching
the pattern of an optional 1–3 numeral, letter/space book words, a digit
run, and exactly one trailing whitespace character. -/
def getSmartTransform (input : String) : String :=
  match input.data.reverse with
  | [] => input
  | last :: r1 =>
    if isWs last then
      let ds := r1.takeWhile Char.isDigit
      if ds.isEmpty then input
      else
        match r1.drop ds.length with
        | [] => input
        | w :: p0rev =>
          if isWs w then
            let p0 := p0rev.reverse
            let p0Tail :=
              match p0 with
              | c :: rest =>
                if c = '1' || c = '2' || c = '3' then rest else p0
              | [] => p0
            if !p0Tail.isEmpty &&
                p0Tail.all (fun c => c.isAlpha || isWs c) then
              jsTrim (String.mk p0) ++ " " ++ String.mk ds.reverse ++ ":"
            else input
          else input
    else input

/-- Character whitelist of the validator's final check. -/
def whitelistOk (s : String) : Bool :=
  s.data.all (fun c =>
    c.isAlpha || c.isDigit || isWs c || c = ':' || c = '.' || c = '-')

/-- Largest chapter count among a candidate book set (`Math.max`). -/
def maxChaptersOf (books : List BibleBookRecord) : Nat :=
  (books.map (fun b => b.chapters)).foldl Nat.max 0

/-- Chapter/verse checks of the validator: a fully-typed numeric chapter
must not exceed the candidates' largest chapter count, a lone `0` chapter
and non-digit chapter characters are blocked, and verse characters must be
digits or `-`. -/
def chapterVerseBlock (t : String) (isIntroNum : Bool) (partsLen : Nat)
    (remainingParts : List String)
    (matchingBooks : List BibleBookRecord) : Bool :=
  if remainingParts.length > 0 ||
      (jsEndsWithSpace t && !isIntroNum && partsLen == 1) then
    let refPart := remainingParts.headD ""
    if refPart ≠ "" then
      let cv := splitOnChar ':' refPart
      let chapterStr := cv.headD ""
      let blockCh :=
        if chapterStr ≠ "" && chapterStr.data.all Char.isDigit then
          let ch := (parseIntJS chapterStr).getD 0
          decide (ch > maxChaptersOf matchingBooks) ||
            (ch == 0 && chapterStr.length == 1)
        else if chapterStr ≠ "" && !(chapterStr.data.all Char.isDigit) then
          true
        else false
      let blockVs :=
        match cv[1]? with
        | some verseStr =>
          !(verseStr.data.all (fun c => c.isDigit || c = '-'))
        | none => false
      blockCh || blockVs
    else false
  else false

/-- Version-tail check of the validator: once a version position is reached,
the partial code must be a prefix of some available version code. -/
def versionBlockCheck (t : String) (remainingParts : List String)
    (versions : List BibleVersion) : Bool :=
  if remainingParts.length ≥ 2 ||
      (remainingParts.length ≥ 1 && jsEndsWithSpace t) then
    let versionPart := remainingParts.getLastD ""
    if versionPart ≠ "" then
      !(versions.any (fun v =>
        strStartsWith (toLowerStr v.code) (toLowerStr versionPart)))
    else false
  else false

/-- The incremental keystroke validator (`handleChange`): deletions pass
unchecked, the candidate is smart-transformed, the book phrase must match
some book, chapter/verse and version tails are checked, a whitelist gates
the characters, and an unambiguous book name is completed inline.  `none`
models a rejected keystroke (the previous value stays), `some v` the value
the field receives. -/
def validateKeystroke (oldVal rawNewVal : String)
    (availableBooks : List BibleBookRecord)
    (availableVersions : List BibleVersion) : Option String :=
  if rawNewVal.length < oldVal.length then some rawNewVal
  else
    let t := getSmartTransform rawNewVal
    let parts := jsSplitWs (jsTrimStart t)
    let isIntroNum := isNum123 (parts.headD "")
    let bookPart :=
      if isIntroNum && parts.length > 1 then
        parts.headD "" ++ " " ++ parts.getD 1 ""
      else parts.headD ""
    let remainingParts :=
      if isIntroNum && parts.length > 1 then parts.drop 2 else parts.drop 1
    let matchingBooks := matchingBooksFor availableBooks bookPart
    if matchingBooks.isEmpty then none
    else if chapterVerseBlock t isIntroNum parts.length remainingParts
        matchingBooks then none
    else if versionBlockCheck t remainingParts availableVersions then none
    else if !(whitelistOk t) then none
    else
      let isBookTypingDone := (isIntroNum && parts.length > 2) ||
        (!isIntroNum && parts.length > 1)
      match matchingBooks with
      | [] => some t
      | b0 :: _ =>
        if t.length > oldVal.length && !isBookTypingDone &&
            (dedupStr (matchingBooks.map (fun b => b.name))).length == 1 then
          let completedValue := b0.name ++ " "
          if completedValue.length > t.length then some completedValue
          else some t
        else some t

/-- Error kinds a parsed reference can carry. -/
inductive RefError
  | referenceUnresolved
  | rangeOutOfBounds
  | badNumber
deriving Repr, DecidableEq

/-- A structured, possibly partial scripture reference. -/
structure ParsedReference where
  book : Option BibleBookRecord
  chapter : Option Nat
  verseStart : Option Nat
  verseEnd : Option Nat
  versionCode : Option String
  errors : List RefError
deriving Repr, DecidableEq

/-- Modelled from the spec: the Book Resolver of the missing
`lib/parser.ts` — every book whose name, id, or abbreviation starts with the
lowercased query, exact name-prefix matches first, then alphabetical by
name, duplicate names collapsed keeping the first. -/
def bookResolver (query : String) (books : List BibleBookRecord) :
    List BibleBookRecord :=
  let q := toLowerStr query
  dedupByName (stableSort (bookLt q) (books.filter (bookMatches q)))

/-- Modelled from the spec: `parseReference` of the missing `lib/parser.ts`,
following the grammar of the spec with the token groups of the reference
regex in `repro_parser.js`: an optional 1–3 numeral plus book words, a
chapter token with optional `:verse` and `-end`, and a trailing alphanumeric
version-code token passed through unchecked; numeric failures and
out-of-range chapters become errors rather than aborts. -/
def parseReference (input : String) (books : List BibleBookRecord) :
    ParsedReference :=
  let toks := (jsSplitWs (jsTrim input)).filter (fun s => s ≠ "")
  match toks with
  | [] => ⟨none, none, none, none, none, []⟩
  | first :: _ =>
    let numbered := isNum123 first && toks.length > 1
    let bookToks :=
      if numbered then toks.take 2
      else toks.takeWhile (fun s => s ≠ "" && s.data.all Char.isAlpha)
    let rest := toks.drop bookToks.length
    let bookPhrase := String.intercalate " " bookToks
    let cands := bookResolver bookPhrase books
    let book := cands.head?
    let cvTok := rest.headD ""
    let cv := splitOnChar ':' cvTok
    let chapter := parseIntJS (cv.headD "")
    let vparts := splitOnChar '-' (cv.getD 1 "")
    let verseStart :=
      if cv.length ≥ 2 then parseIntJS (vparts.headD "") else none
    let verseEnd :=
      if cv.length ≥ 2 && vparts.length ≥ 2 then parseIntJS (vparts.getD 1 "")
      else none
    let afterCv := if cvTok ≠ "" then rest.drop 1 else rest
    let versionCode :=
      match afterCv.headD "" with
      | "" => none
      | vtok =>
        if vtok.data.all (fun c => c.isAlpha || c.isDigit) then some vtok
        else none
    let errs1 :=
      if bookPhrase ≠ "" && cands.isEmpty then [RefError.referenceUnresolved]
      else []
    let errs2 :=
      (if cvTok ≠ "" && chapter = none then [RefError.badNumber] else []) ++
      (if cv.length ≥ 2 && verseStart = none then [RefError.badNumber]
       else []) ++
      (if cv.length ≥ 2 && vparts.length ≥ 2 && verseEnd = none then
        [RefError.badNumber] else [])
    let errs3 :=
      match book, chapter with
      | some b, some c =>
        if c > b.chapters then [RefError.rangeOutOfBounds] else []
      | _, _ => []
    ⟨book, chapter, verseStart, verseEnd, versionCode, errs1 ++ errs2 ++ errs3⟩

/-- Sample corpus used by the concrete test theorems below. -/
def matthewBook : BibleBookRecord :=
  ⟨"nkjv|matthew", "nkjv", "matthew", "Matthew", "Mat", 28⟩

/-- Sample book record for 1 John. -/
def oneJohnBook : BibleBookRecord :=
  ⟨"nkjv|1john", "nkjv", "1john", "1 John", "1Jn", 5⟩

/-- Sample book record for Mark. -/
def markBook : BibleBookRecord :=
  ⟨"nkjv|mark", "nkjv", "mark", "Mark", "Mrk", 16⟩

/-- Sample book record for John. -/
def johnBook : BibleBookRecord :=
  ⟨"nkjv|john", "nkjv", "john", "John", "Jhn", 21⟩

/-- Sample corpus book list containing Matthew and 1 John. -/
def sampleBooks : List BibleBookRecord :=
  [matthewBook, markBook, johnBook, oneJohnBook]

/-- JSON document with a single verse row that carries its own `version`
property. -/
def overrideDoc : JsonDoc :=
  { verses := [{ bookId := "b", chapter := 1, verse := 2, text := "t",
                 versionField := some "x" }] }

/-- Simple-XML document with one verse whose text is a single space. -/
def wsVerseDoc : XmlNode :=
  XmlNode.elem "bible" []
    [XmlNode.elem "book" [("name", "Genesis")]
      [XmlNode.elem "chapter" [("number", "1")]
        [XmlNode.elem "verse" [("number", "1")] [XmlNode.txt " "]]]]

/-- OSIS document with one milestone-marked verse. -/
def osisMilestoneDoc : XmlNode :=
  XmlNode.elem "osis" []
    [XmlNode.elem "div" [("type", "book"), ("osisID", "Gen")]
      [XmlNode.elem "verse" [("sID", "Gen.1.1")] [], XmlNode.txt "text",
       XmlNode.elem "verse" [("eID", "Gen.1.1")] []]]

/-- JSON parse stub that fails on every input, as on malformed syntax. -/
def failingJsonParse : String → Option JsonDoc := fun _ => none

/-- DOM parse stub producing the error document a browser's parser yields on
bytes that are not XML. -/
def garbageDOM : String → XmlNode := fun _ => XmlNode.elem "parsererror" [] []

/-- Archive buffer containing no `.json` or `.xml` entry; its raw bytes
decode to text that does not start with a brace. -/
def zipNoEntryBuffer : RawBuffer := ⟨some [("readme.txt", "hi")], "PKx"⟩

/-- Sample decoded version record. -/
def sampleVersion : BibleVersion := ⟨"nkjv", "NKJV Bible", "NKJV", 0, 0⟩

/-- Test whether a trace places both deletes for the version before the
version-record write, as the specified order requires. -/
def deletesBeforeVersionWrite (ops : List Op) : Bool :=
  let isDelB : Op → Bool := fun o =>
    match o with | .deleteBooksOfVersion _ => true | _ => false
  let isDelV : Op → Bool := fun o =>
    match o with | .deleteVersesOfVersion _ => true | _ => false
  let isPut : Op → Bool := fun o =>
    match o with | .putVersion _ => true | _ => false
  match ops.findIdx? isDelB, ops.findIdx? isDelV, ops.findIdx? isPut with
  | some i, some j, some k => decide (i < k) && decide (j < k)
  | _, _, _ => false

theorem applyOps_append (s : StoreState) (l1 l2 : List Op) :
    applyOps s (l1 ++ l2) = applyOps (applyOps s l1) l2 :=
  List.foldl_append _ _ _ _

theorem applyOps_bulkAddVerses (s : StoreState) (l : List (List BibleVerse)) :
    applyOps s (l.map Op.bulkAddVerses) =
      { s with verses := s.verses ++ l.flatten } := by
  induction l generalizing s with
  | nil => simp [applyOps]
  | cons chunk rest ih =>
    simp only [List.map_cons, applyOps, List.foldl_cons]
    have := ih (applyOp s (Op.bulkAddVerses chunk))
    simp only [applyOps] at this
    rw [this]
    simp [applyOp, List.append_assoc]

theorem chunks500_flatten (vs : List BibleVerse) :
    (chunks500 vs).flatten = vs := by
  induction vs using chunks500.induct with
  | case1 => simp [chunks500]
  | case2 v rest ih =>
    rw [chunks500]
    simp only [List.flatten_cons]
    rw [ih, List.take_append_drop]

theorem range_slices_eq_chunks (vs : List BibleVerse) :
    (List.range ((vs.length + BATCH_SIZE - 1) / BATCH_SIZE)).map
      (fun i => (vs.drop (i * BATCH_SIZE)).take BATCH_SIZE) = chunks500 vs := by
  induction vs using chunks500.induct with
  | case1 => simp [chunks500, BATCH_SIZE]
  | case2 v rest ih =>
    have htot : ((v :: rest).length + BATCH_SIZE - 1) / BATCH_SIZE =
        rest.length / BATCH_SIZE + 1 := by
      simp only [List.length_cons, BATCH_SIZE]
      rw [show rest.length + 1 + 500 - 1 = rest.length + 500 from by omega,
        Nat.add_div_right _ (by norm_num)]
    have htot2 : (((v :: rest).drop BATCH_SIZE).length + BATCH_SIZE - 1)
        / BATCH_SIZE = rest.length / BATCH_SIZE := by
      simp only [List.length_drop, List.length_cons, BATCH_SIZE]
      rcases Nat.lt_or_ge rest.length 500 with h | h
      · rw [show rest.length + 1 - 500 = 0 from by omega,
          Nat.div_eq_of_lt (by omega)]
        exact (Nat.div_eq_of_lt h).symm
      · rw [show rest.length + 1 - 500 + 500 - 1 = rest.length from by omega]
    rw [htot, chunks500, List.range_succ_eq_map, List.map_cons, List.map_map]
    have hfun : ((fun i => ((v :: rest).drop (i * BATCH_SIZE)).take BATCH_SIZE)
          ∘ Nat.succ) =
        (fun i => (((v :: rest).drop BATCH_SIZE).drop (i * BATCH_SIZE)).take
          BATCH_SIZE) := by
      funext i
      simp only [Function.comp_apply]
      rw [List.drop_drop]
      congr 2
      rw [Nat.succ_mul]
      omega
    rw [hfun]
    rw [htot2] at ih
    rw [ih]
    simp

theorem batchOps_eq_chunks (vs : List BibleVerse) :
    ((List.range ((vs.length + BATCH_SIZE - 1) / BATCH_SIZE)).map
      (fun i => Op.bulkAddVerses ((vs.drop (i * BATCH_SIZE)).take BATCH_SIZE)))
      = (chunks500 vs).map Op.bulkAddVerses := by
  rw [← range_slices_eq_chunks, List.map_map]
  rfl

theorem applyOps_performBatchImport (s : StoreState) (v : BibleVersion)
    (vs : List BibleVerse) (bs : List BibleBookRecord) :
    applyOps s (performBatchImport v vs bs).1 =
      { versions := s.versions.filter (fun w => w.id ≠ v.id) ++ [v]
        books := s.books.filter (fun b => b.version ≠ v.id) ++ bs
        verses := s.verses.filter (fun r => r.version ≠ v.id) ++ vs } := by
  have hbatch := batchOps_eq_chunks vs
  by_cases hbs : bs.length > 0
  · simp only [performBatchImport, hbs, if_pos]
    rw [hbatch]
    simp only [List.singleton_append, List.cons_append]
    show applyOps s (Op.putVersion v :: Op.deleteBooksOfVersion v.id ::
      Op.deleteVersesOfVersion v.id :: Op.bulkAddBooks bs ::
      (chunks500 vs).map Op.bulkAddVerses) = _
    simp only [applyOps, List.foldl_cons]
    have := applyOps_bulkAddVerses (applyOp (applyOp (applyOp (applyOp s
      (Op.putVersion v)) (Op.deleteBooksOfVersion v.id))
      (Op.deleteVersesOfVersion v.id)) (Op.bulkAddBooks bs)) (chunks500 vs)
    simp only [applyOps] at this
    rw [this, chunks500_flatten]
    simp [applyOp]
  · have hbs0 : bs = [] := List.length_eq_zero.mp (by omega)
    subst hbs0
    simp only [performBatchImport]
    rw [if_neg hbs, hbatch]
    simp only [List.append_nil, List.singleton_append, List.cons_append]
    show applyOps s (Op.putVersion v :: Op.deleteBooksOfVersion v.id ::
      Op.deleteVersesOfVersion v.id ::
      (chunks500 vs).map Op.bulkAddVerses) = _
    simp only [applyOps, List.foldl_cons]
    have := applyOps_bulkAddVerses (applyOp (applyOp (applyOp s
      (Op.putVersion v)) (Op.deleteBooksOfVersion v.id))
      (Op.deleteVersesOfVersion v.id)) (chunks500 vs)
    simp only [applyOps] at this
    rw [this, chunks500_flatten]
    simp [applyOp]

theorem filter_key_ne_then_eq {α} (key : α → String) (vid : String)
    (l : List α) :
    (l.filter (fun a => key a ≠ vid)).filter (fun a => key a = vid) = [] := by
  induction l with
  | nil => rfl
  | cons a t ih => by_cases h : key a = vid <;> simp [List.filter_cons, h, ih]

theorem filter_key_ne_idem {α} (key : α → String) (vid : String)
    (l : List α) :
    (l.filter (fun a => key a ≠ vid)).filter (fun a => key a ≠ vid) =
      l.filter (fun a => key a ≠ vid) := by
  induction l with
  | nil => rfl
  | cons a t ih => by_cases h : key a = vid <;> simp [List.filter_cons, h, ih]

theorem findSplit {α} (p : α → Bool) :
    ∀ (l : List α) (x : α), l.find? p = some x →
      ∃ l1 l2, l = l1 ++ x :: l2 ∧ (∀ y ∈ l1, p y = false) ∧ p x = true := by
  intro l
  induction l with
  | nil => intro x h; simp [List.find?] at h
  | cons a t ih =>
    intro x h
    by_cases hpa : p a = true
    · rw [List.find?_cons_of_pos _ hpa] at h
      obtain rfl : a = x := by injection h
      exact ⟨[], t, by simp, by simp, hpa⟩
    · rw [List.find?_cons_of_neg _ (by simpa using hpa)] at h
      obtain ⟨l1, l2, h1, h2, h3⟩ := ih x h
      refine ⟨a :: l1, l2, by simp [h1], ?_, h3⟩
      intro y hy
      rcases List.mem_cons.mp hy with rfl | hy'
      · simpa using hpa
      · exact h2 y hy'

theorem find?_append_none {α} (p : α → Bool) (l1 l2 : List α)
    (h : l1.find? p = none) : (l1 ++ l2).find? p = l2.find? p := by
  induction l1 with
  | nil => simp
  | cons a t ih =>
    rw [List.find?_cons] at h
    rw [List.cons_append, List.find?_cons]
    cases hpa : p a with
    | true => simp [hpa] at h
    | false =>
      simp only [hpa] at h ⊢
      exact ih h

/-- C1 (amended): the batch importer issues, as one unit ordered around the
target version id, the version-record write FIRST, then the deletion of that
id's books and then verses, then a book bulk-insert exactly when books were
derived, then the verses in consecutive batches of 500 (`chunks500`), with
exactly one `importing` progress event per batch. -/
theorem c1_import_order_and_batching (v : BibleVersion) (vs : List BibleVerse)
    (bs : List BibleBookRecord) :
    (performBatchImport v vs bs).1 =
      Op.putVersion v :: Op.deleteBooksOfVersion v.id ::
        Op.deleteVersesOfVersion v.id ::
        ((if bs.length > 0 then [Op.bulkAddBooks bs] else []) ++
          (chunks500 vs).map Op.bulkAddVerses) ∧
    (performBatchImport v vs bs).2 =
      (List.range ((chunks500 vs).length)).map
        (fun i => ⟨ImportPhase.importing,
          jsRound ((i + 1) * 100) ((chunks500 vs).length)⟩) ∧
    (chunks500 vs).flatten = vs := by
  have hlen : (chunks500 vs).length =
      (vs.length + BATCH_SIZE - 1) / BATCH_SIZE := by
    have := congrArg List.length (range_slices_eq_chunks vs)
    simpa using this.symm
  refine ⟨?_, ?_, chunks500_flatten vs⟩
  · simp only [performBatchImport]
    rw [batchOps_eq_chunks]
    simp [List.cons_append]
  · simp only [performBatchImport]
    rw [hlen]

/-- C1 (counterexample): the claimed order — delete the version's books and
verses first, then write the version record — fails on the code: on a
concrete import the first operation issued is the version-record write and
both deletes follow it. -/
theorem c1_counterexample :
    (performBatchImport sampleVersion [] []).1 =
      [Op.putVersion sampleVersion, Op.deleteBooksOfVersion "nkjv",
       Op.deleteVersesOfVersion "nkjv"] ∧
    deletesBeforeVersionWrite (performBatchImport sampleVersion [] []).1
      = false := by
  constructor
  · rfl
  · rfl

theorem import_replace_queries (s : StoreState) (v1 v2 : BibleVersion)
    (vs : List BibleVerse) (bs : List BibleBookRecord)
    (hid : v1.id = v2.id) :
    (versionsFor (applyOps (applyOps s (performBatchImport v1 vs bs).1)
        (performBatchImport v2 vs bs).1) v2.id =
      versionsFor (applyOps s (performBatchImport v2 vs bs).1) v2.id) ∧
    (booksFor (applyOps (applyOps s (performBatchImport v1 vs bs).1)
        (performBatchImport v2 vs bs).1) v2.id =
      booksFor (applyOps s (performBatchImport v2 vs bs).1) v2.id) ∧
    (versesFor (applyOps (applyOps s (performBatchImport v1 vs bs).1)
        (performBatchImport v2 vs bs).1) v2.id =
      versesFor (applyOps s (performBatchImport v2 vs bs).1) v2.id) := by
  rw [applyOps_performBatchImport, applyOps_performBatchImport,
    applyOps_performBatchImport]
  simp only [versionsFor, booksFor, versesFor, hid]
  refine ⟨?_, ?_, ?_⟩
  · simp only [List.filter_append]
    rw [show ([v1].filter (fun w => decide (w.id ≠ v2.id))) = [] from by
      simp [List.filter_cons, hid]]
    rw [filter_key_ne_idem (fun w : BibleVersion => w.id),
      filter_key_ne_then_eq (fun w : BibleVersion => w.id)]
    simp
  · simp only [List.filter_append]
    rw [filter_key_ne_idem (fun b : BibleBookRecord => b.version),
      filter_key_ne_then_eq (fun b : BibleBookRecord => b.version),
      filter_key_ne_then_eq (fun b : BibleBookRecord => b.version)]
    simp
  · simp only [List.filter_append]
    rw [filter_key_ne_idem (fun r : BibleVerse => r.version),
      filter_key_ne_then_eq (fun r : BibleVerse => r.version),
      filter_key_ne_then_eq (fun r : BibleVerse => r.version)]
    simp

/-- C2: importing the same decoded JSON document twice under the same
version id leaves the store's version, book, and verse records for that id
identical to a single import (performed at the second import's clock): the
second import fully replaces the first within the version id, producing no
duplicate records there. -/
theorem c2_import_idempotent (s : StoreState) (doc : JsonDoc)
    (contentLength : Nat) (defaultName : String) (t1 t2 : Nat) :
    (versionsFor (jsonImportState (jsonImportState s doc contentLength
        defaultName t1) doc contentLength defaultName t2)
        (importFromJson doc contentLength defaultName t2).version.id =
      versionsFor (jsonImportState s doc contentLength defaultName t2)
        (importFromJson doc contentLength defaultName t2).version.id) ∧
    (booksFor (jsonImportState (jsonImportState s doc contentLength
        defaultName t1) doc contentLength defaultName t2)
        (importFromJson doc contentLength defaultName t2).version.id =
      booksFor (jsonImportState s doc contentLength defaultName t2)
        (importFromJson doc contentLength defaultName t2).version.id) ∧
    (versesFor (jsonImportState (jsonImportState s doc contentLength
        defaultName t1) doc contentLength defaultName t2)
        (importFromJson doc contentLength defaultName t2).version.id =
      versesFor (jsonImportState s doc contentLength defaultName t2)
        (importFromJson doc contentLength defaultName t2).version.id) :=
  import_replace_queries s
    (importFromJson doc contentLength defaultName t1).version
    (importFromJson doc contentLength defaultName t2).version
    (importFromJson doc contentLength defaultName t2).verses
    (importFromJson doc contentLength defaultName t2).books rfl

/-- Ordinary JSON verse row with no override fields. -/
def plainRow : JsonVerseRow :=
  { bookId := "b", chapter := 1, verse := 2, text := "hello" }

/-- JSON document with one ordinary verse row (no override fields). -/
def plainDoc : JsonDoc := { verses := [plainRow] }

/-- C3 (amended): for a JSON document whose verse rows carry no `version`
property of their own, importing it and listing the verses stored for the
computed version id yields exactly one record per source row, and each row
is retrievable by its `(bookId, chapter, verse)` key within that version. -/
theorem c3_roundtrip (s : StoreState) (doc : JsonDoc) (contentLength : Nat)
    (defaultName : String) (t : Nat)
    (hrow : ∀ r ∈ doc.verses, r.versionField = none) :
    (versesFor (jsonImportState s doc contentLength defaultName t)
        (importFromJson doc contentLength defaultName t).version.id).length =
      doc.verses.length ∧
    ∀ r ∈ doc.verses, ∃ rec,
      getVerse (jsonImportState s doc contentLength defaultName t)
          (importFromJson doc contentLength defaultName t).version.id
          r.bookId (some r.chapter) (some r.verse) = some rec ∧
      rec.version = (importFromJson doc contentLength defaultName t).version.id
        ∧ rec.bookId = r.bookId ∧ rec.chapter = some r.chapter ∧
      rec.verse = some r.verse := by
  have hstate : jsonImportState s doc contentLength defaultName t =
      { versions := s.versions.filter (fun w => w.id ≠
          (importFromJson doc contentLength defaultName t).version.id) ++
          [(importFromJson doc contentLength defaultName t).version]
        books := s.books.filter (fun b => b.version ≠
          (importFromJson doc contentLength defaultName t).version.id) ++
          (importFromJson doc contentLength defaultName t).books
        verses := s.verses.filter (fun r => r.version ≠
          (importFromJson doc contentLength defaultName t).version.id) ++
          (importFromJson doc contentLength defaultName t).verses } :=
    applyOps_performBatchImport s
      (importFromJson doc contentLength defaultName t).version
      (importFromJson doc contentLength defaultName t).verses
      (importFromJson doc contentLength defaultName t).books
  have hverses : (importFromJson doc contentLength defaultName t).verses =
      doc.verses.map (mkJsonVerse
        (importFromJson doc contentLength defaultName t).version.id) := rfl
  have hallvid : ∀ rec ∈ (importFromJson doc contentLength defaultName
      t).verses, rec.version =
      (importFromJson doc contentLength defaultName t).version.id := by
    rw [hverses]
    intro rec hrec
    obtain ⟨r, hr, rfl⟩ := List.mem_map.mp hrec
    simp [mkJsonVerse, hrow r hr]
  constructor
  · rw [hstate]
    simp only [versesFor, List.filter_append]
    rw [filter_key_ne_then_eq (fun r : BibleVerse => r.version)]
    rw [List.nil_append]
    rw [List.filter_eq_self.mpr (by
      intro a ha
      simpa using hallvid a ha)]
    rw [hverses, List.length_map]
  · intro r hr
    have hmem : mkJsonVerse
        (importFromJson doc contentLength defaultName t).version.id r ∈
        (importFromJson doc contentLength defaultName t).verses := by
      rw [hverses]
      exact List.mem_map_of_mem _ hr
    have hpred : (fun rec : BibleVerse =>
        rec.version == (importFromJson doc contentLength defaultName
            t).version.id &&
          rec.bookId == r.bookId && rec.chapter == some r.chapter &&
          rec.verse == some r.verse)
        (mkJsonVerse (importFromJson doc contentLength defaultName
          t).version.id r) = true := by
      simp [mkJsonVerse, hrow r hr]
    rw [hstate]
    simp only [getVerse]
    rw [find?_append_none _ _ _ (by
      rw [List.find?_eq_none]
      intro x hx
      have := (List.mem_filter.mp hx).2
      simp only [decide_eq_true_eq] at this
      simp [this])]
    have hsome : ((importFromJson doc contentLength defaultName
        t).verses.find? (fun rec =>
          rec.version == (importFromJson doc contentLength defaultName
              t).version.id &&
            rec.bookId == r.bookId && rec.chapter == some r.chapter &&
            rec.verse == some r.verse)).isSome := by
      rw [List.find?_isSome]
      exact ⟨_, hmem, hpred⟩
    obtain ⟨rec, hrec⟩ := Option.isSome_iff_exists.mp hsome
    refine ⟨rec, hrec, ?_⟩
    have := List.find?_some hrec
    simp only [Bool.and_eq_true, beq_iff_eq] at this
    exact ⟨this.1.1.1, this.1.1.2, this.1.2, this.2⟩

/-- C3 (counterexample): the round-trip count fails for an arbitrary JSON
document: a verse row carrying its own `version` property is stored under
that value, so listing the computed version id returns zero records for the
one-row document. -/
theorem c3_counterexample :
    versesFor (jsonImportState ⟨[], [], []⟩ overrideDoc 10 "my_bible.json" 5)
        (importFromJson overrideDoc 10 "my_bible.json" 5).version.id = [] ∧
    overrideDoc.verses.length = 1 := by
  constructor
  · rfl
  · rfl

/-- C3 (witness): the amended round-trip theorem applied to a concrete
one-verse document with no override fields. -/
theorem c3_roundtrip_witness :
    (versesFor (jsonImportState ⟨[], [], []⟩ plainDoc 10 "my_bible.json" 5)
        (importFromJson plainDoc 10 "my_bible.json" 5).version.id).length =
      plainDoc.verses.length :=
  (c3_roundtrip ⟨[], [], []⟩ plainDoc 10 "my_bible.json" 5
    (by intro r hr; simp [plainDoc] at hr; subst hr; rfl)).1

/-- C4 (amended): when a file name contains any known version code as a
substring (and no explicit metadata supplies a code), resolution returns the
FIRST matching entry in the fixed `KNOWN_BIBLE_VERSIONS` order — every
earlier entry is not a substring — rather than the longest match; the list
places several longer codes first, so the spec's example still resolves:
`NRSVA_bible` gives `NRSVA`, not `RSV`. -/
theorem c4_first_match_resolution :
    (∀ f : String, ∀ c ∈ KNOWN_BIBLE_VERSIONS,
      strContains (toUpperStr f) (toUpperStr c) = true →
      ∃ c2 l1 l2, versionCodeFromFilename f = some c2 ∧
        strContains (toUpperStr f) (toUpperStr c2) = true ∧
        KNOWN_BIBLE_VERSIONS = l1 ++ c2 :: l2 ∧
        (∀ d ∈ l1, strContains (toUpperStr f) (toUpperStr d) = false)) ∧
    resolveBibleCode none "NRSVA_bible" "NRSVA bible" = "NRSVA" := by
  constructor
  · intro f c hc hsub
    have hsome : ((KNOWN_BIBLE_VERSIONS.find?
        (fun v => strContains (toUpperStr f) (toUpperStr v)))).isSome := by
      rw [List.find?_isSome]
      exact ⟨c, hc, hsub⟩
    obtain ⟨c2, hc2⟩ := Option.isSome_iff_exists.mp hsome
    obtain ⟨l1, l2, hsplit, hprior, hpc2⟩ := findSplit _ _ _ hc2
    exact ⟨c2, l1, l2, hc2, hpc2, hsplit, hprior⟩
  · rfl

/-- C4 (counterexample): version-code resolution does not return the longest
known substring: for the file-name base `AKJV_Bible` both `KJV` and the
longer `AKJV` are known substrings, yet resolution returns `KJV` because it
precedes `AKJV` in the dictionary's order. -/
theorem c4_counterexample :
    resolveBibleCode none "AKJV_Bible" "AKJV Bible" = "KJV" ∧
    "AKJV" ∈ KNOWN_BIBLE_VERSIONS ∧
    strContains (toUpperStr "AKJV_Bible") (toUpperStr "AKJV") = true ∧
    "KJV".length < "AKJV".length ∧
    resolveBibleCode none "AKJV_Bible" "AKJV Bible" ≠ "AKJV" := by
  refine ⟨rfl, by decide, rfl, by decide, by decide⟩

/-- C4 (witness): the first-match theorem applied to the spec's example —
`RSV` is a known substring of `NRSVA_BIBLE`, and the resolver's answer is an
entry no earlier match precedes. -/
theorem c4_witness :
    ∃ c2 l1 l2, versionCodeFromFilename "NRSVA_bible" = some c2 ∧
      strContains (toUpperStr "NRSVA_bible") (toUpperStr c2) = true ∧
      KNOWN_BIBLE_VERSIONS = l1 ++ c2 :: l2 ∧
      (∀ d ∈ l1, strContains (toUpperStr "NRSVA_bible") (toUpperStr d)
        = false) :=
  c4_first_match_resolution.1 "NRSVA_bible" "RSV" (by decide) (by decide)

/-- C5: against a corpus containing 1 John and Matthew, the reference parser
resolves `1 John 1:9-10 NKJV` to 1 John 1, verses 9–10, version NKJV with no
errors, and `Matthew 3:1` to Matthew 3, verse 1, no range end, no version,
no errors. -/
theorem c5_parse_reference_examples :
    parseReference "1 John 1:9-10 NKJV" sampleBooks =
      { book := some oneJohnBook, chapter := some 1, verseStart := some 9,
        verseEnd := some 10, versionCode := some "NKJV", errors := [] } ∧
    parseReference "Matthew 3:1" sampleBooks =
      { book := some matthewBook, chapter := some 3, verseStart := some 1,
        verseEnd := none, versionCode := none, errors := [] } :=
  ⟨rfl, rfl⟩

/-- C7 (amended): the JSON decoder's verse rows are the source rows mapped
through `mkJsonVerse` at the computed version id; a row with no `version`
(resp. `pk`) property of its own is stamped with the computed version id
(resp. the composite primary key), while a row carrying such a property
keeps it, since the row's fields are spread over the stamped ones. -/
theorem c7_stamping (doc : JsonDoc) (contentLength : Nat)
    (defaultName : String) (now : Nat) (vid : String) (r : JsonVerseRow) :
    ((importFromJson doc contentLength defaultName now).verses =
      doc.verses.map (mkJsonVerse
        (importFromJson doc contentLength defaultName now).version.id)) ∧
    (r.versionField = none → (mkJsonVerse vid r).version = vid) ∧
    (r.pkField = none → (mkJsonVerse vid r).pk =
      vid ++ "|" ++ r.bookId ++ "|" ++ toString r.chapter ++ "|" ++
        toString r.verse) := by
  refine ⟨rfl, ?_, ?_⟩
  · intro h
    simp [mkJsonVerse, h]
  · intro h
    simp [mkJsonVerse, h]

/-- C7 (counterexample): the stamping claim fails for rows with extra
fields: a source row carrying `version := "x"` is emitted with version `x`,
not the computed version id. -/
theorem c7_counterexample :
    ((importFromJson overrideDoc 10 "my_bible.json" 5).verses.map
      (fun rec => rec.version)) = ["x"] ∧
    (importFromJson overrideDoc 10 "my_bible.json" 5).version.id =
      "my-bible" ∧ ("x" : String) ≠ "my-bible" := by
  refine ⟨rfl, rfl, by decide⟩

/-- C7 (witness): the amended stamping theorem evaluated on a row without
override fields. -/
theorem c7_witness :
    (mkJsonVerse "vid" plainRow).version = "vid" ∧
    (mkJsonVerse "vid" plainRow).pk = "vid|b|1|2" := by
  have h := c7_stamping { verses := [] } 0 "x.json" 0 "vid" plainRow
  exact ⟨h.2.1 rfl, by rw [h.2.2 rfl]; rfl⟩

theorem importFromXml_ops_head (root : XmlNode) (dn : String) (now : Nat) :
    ∃ v rest, (importFromXml root dn now).ops = Op.putVersion v :: rest := by
  unfold importFromXml
  by_cases h : toLowerStr (tagOf root) = "osis"
  · rw [if_pos h]
    exact ⟨_, _, rfl⟩
  · rw [if_neg h]
    exact ⟨_, _, rfl⟩

/-- C8 (amended): a malformed-JSON decode failure aborts the import before
any store operation, but an archive containing no `.json`/`.xml` entry is
not a decode failure: the error is caught, the raw bytes are reinterpreted
as a bare XML document, and the import proceeds to write a version record
as its first store operation. -/
theorem c8_decode_failure_policy :
    (∀ (jp : String → Option JsonDoc) (pd : String → XmlNode)
      (buf : RawBuffer) (ofn : Option String) (now : Nat),
      buf.unzipped = none → ofn = none →
      strStartsWith (jsTrim buf.asText) "\x7b" = true →
      jp buf.asText = none →
      processBibleBuffer jp pd buf ofn now = .error .jsonSyntax) ∧
    (∀ (jp : String → Option JsonDoc) (pd : String → XmlNode)
      (buf : RawBuffer) (ofn : Option String) (now : Nat)
      (es : List (String × String)),
      buf.unzipped = some es →
      es.find? (fun e => strEndsWith e.1 ".json" || strEndsWith e.1 ".xml")
        = none →
      ofn = none →
      strStartsWith (jsTrim buf.asText) "\x7b" = false →
      ∃ v rest, processBibleBuffer jp pd buf ofn now =
        .ok (Op.putVersion v :: rest)) := by
  constructor
  · intro jp pd buf ofn now h1 h2 h3 h4
    subst h2
    simp only [processBibleBuffer, h1, h3, h4, if_true, jsOrStr, jsOrS,
      Option.getD_some]
    rfl
  · intro jp pd buf ofn now es h1 h2 h3 h4
    subst h3
    simp only [processBibleBuffer, h1, h2, h4, jsOrStr, jsOrS,
      Option.getD_some]
    obtain ⟨v, rest, hops⟩ := importFromXml_ops_head (pd buf.asText)
      "bible.xml" now
    refine ⟨v, rest, ?_⟩
    simp only [Bool.false_eq_true, if_false]
    rw [show strEndsWith "bible.xml" ".json" = false from rfl]
    simp only [Bool.false_eq_true, if_false]
    rw [hops]

/-- C8 (counterexample): the abort-before-mutation claim fails for an
archive with no `.json`/`.xml` entry: on a concrete such buffer the pipeline
does not abort — it reinterprets the bytes as XML and issues a version-record
write (followed by the deletes) for a version derived from the fallback
name. -/
theorem c8_counterexample :
    processBibleBuffer failingJsonParse garbageDOM zipNoEntryBuffer none 7 =
      Except.ok [Op.putVersion ⟨"bible", "bible", "BIBLE", 7, 27⟩,
        Op.deleteBooksOfVersion "bible",
        Op.deleteVersesOfVersion "bible"] := rfl

/-- C8 (witness): the decode-failure policy applied to a concrete malformed
raw JSON buffer and to the concrete no-entry archive. -/
theorem c8_witness :
    processBibleBuffer failingJsonParse garbageDOM ⟨none, "\x7bbad"⟩ none 7 =
      .error .jsonSyntax ∧
    ∃ v rest, processBibleBuffer failingJsonParse garbageDOM
      zipNoEntryBuffer none 7 = .ok (Op.putVersion v :: rest) :=
  ⟨c8_decode_failure_policy.1 failingJsonParse garbageDOM ⟨none, "\x7bbad"⟩
      none 7 rfl rfl rfl rfl,
    c8_decode_failure_policy.2 failingJsonParse garbageDOM zipNoEntryBuffer
      none 7 [("readme.txt", "hi")] rfl rfl rfl rfl⟩

theorem dropWhile_head_false {α} (p : α → Bool) (l : List α) (c : α)
    (h : (l.dropWhile p).head? = some c) : p c = false := by
  induction l with
  | nil => simp [List.dropWhile] at h
  | cons a t ih =>
    rw [List.dropWhile_cons] at h
    by_cases hpa : p a = true
    · rw [if_pos hpa] at h
      exact ih h
    · rw [if_neg hpa] at h
      obtain rfl : a = c := by simpa using h
      simpa using hpa

theorem dropWhile_eq_self {α} (p : α → Bool) (l : List α)
    (h : ∀ c, l.head? = some c → p c = false) : l.dropWhile p = l := by
  cases l with
  | nil => rfl
  | cons a t =>
    rw [List.dropWhile_cons]
    simp [h a rfl]

theorem dropWhile_getLast {α} (p : α → Bool) (l : List α)
    (h : l.dropWhile p ≠ []) : (l.dropWhile p).getLast? = l.getLast? := by
  conv_rhs => rw [← List.takeWhile_append_dropWhile p l]
  rw [List.getLast?_append_of_ne_nil _ h]

theorem jsTrim_idem (s : String) : jsTrim (jsTrim s) = jsTrim s := by
  unfold jsTrim
  apply congrArg String.mk
  show ((((((s.data.dropWhile isWs).reverse.dropWhile
    isWs).reverse).dropWhile isWs).reverse.dropWhile isWs).reverse) = _
  by_cases hw : (s.data.dropWhile isWs).reverse.dropWhile isWs = []
  · rw [hw]
    rfl
  · have h1 : (((s.data.dropWhile isWs).reverse.dropWhile
        isWs).reverse).dropWhile isWs =
        ((s.data.dropWhile isWs).reverse.dropWhile isWs).reverse := by
      apply dropWhile_eq_self
      intro c hc
      rw [List.head?_reverse] at hc
      rw [dropWhile_getLast _ _ hw, List.getLast?_reverse] at hc
      exact dropWhile_head_false _ _ _ hc
    rw [h1, List.reverse_reverse]
    have h2 : ((s.data.dropWhile isWs).reverse.dropWhile
        isWs).dropWhile isWs =
        (s.data.dropWhile isWs).reverse.dropWhile isWs := by
      apply dropWhile_eq_self
      intro c hc
      exact dropWhile_head_false _ _ _ hc
    rw [h2]

theorem foldl_append_mem {α β} (P : β → Prop) (f : α → List β) (l : List α)
    (acc : List β) (hacc : ∀ x ∈ acc, P x) (hf : ∀ a, ∀ x ∈ f a, P x) :
    ∀ x ∈ l.foldl (fun acc a => acc ++ f a) acc, P x := by
  induction l generalizing acc with
  | nil => exact hacc
  | cons a t ih =>
    intro x hx
    refine ih (acc ++ f a) ?_ x hx
    intro y hy
    rcases List.mem_append.mp hy with hy' | hy'
    · exact hacc y hy'
    · exact hf a y hy'

theorem pairFoldFst {α β γ} (f : α → List β) (g : α → List γ) (l : List α)
    (a1 : List β) (a2 : List γ) :
    (l.foldl (fun acc b => (acc.1 ++ f b, acc.2 ++ g b)) (a1, a2)).1 =
      l.foldl (fun acc b => acc ++ f b) a1 := by
  induction l generalizing a1 a2 with
  | nil => rfl
  | cons b t ih => exact ih (a1 ++ f b) (a2 ++ g b)

theorem simpleVersesOfChapter_text_ne (vid bookId bookName : String)
    (chapterNum : Option Nat) (chapterNode : XmlNode) :
    ∀ rec ∈ simpleVersesOfChapter vid bookId bookName chapterNum chapterNode,
      rec.text ≠ "" := by
  intro rec hrec
  unfold simpleVersesOfChapter at hrec
  obtain ⟨vn, _, hsome⟩ := List.mem_filterMap.mp hrec
  simp only at hsome
  by_cases h : textContent vn = ""
  · rw [if_neg (not_not_intro h)] at hsome
    exact Option.noConfusion hsome
  · rw [if_pos h] at hsome
    obtain rfl := Option.some.inj hsome
    exact h

theorem simpleProcessBook_text_ne (vid : String) (bookNode : XmlNode) :
    ∀ rec ∈ (simpleProcessBook vid bookNode).1, rec.text ≠ "" := by
  unfold simpleProcessBook
  refine foldl_append_mem _ _ _ [] (by simp) ?_
  intro ch rec hrec
  exact simpleVersesOfChapter_text_ne _ _ _ _ _ rec hrec

theorem osisVerseStep_preserve (vid bookId bookName : String)
    (prs : List (XmlNode × List XmlNode))
    (acc : List BibleVerse × Nat)
    (hacc : ∀ rec ∈ acc.1, jsTrim rec.text ≠ "") :
    ∀ rec ∈ (prs.foldl (osisVerseStep vid bookId bookName) acc).1,
      jsTrim rec.text ≠ "" := by
  induction prs generalizing acc with
  | nil => exact hacc
  | cons pr rest ih =>
    intro rec hrec
    refine ih (osisVerseStep vid bookId bookName acc pr) ?_ rec hrec
    intro x hx
    unfold osisVerseStep at hx
    by_cases hp : (splitOnChar '.' (jsOrStr (jsOrS (getAttr pr.1 "osisID")
        (getAttr pr.1 "sID")) "")).length ≥ 3
    · simp only [hp, if_pos] at hx
      set txt := (if jsTrim (textContent pr.1) = "" &&
          truthyS (getAttr pr.1 "sID") then
          collectMilestoneText ((getAttr pr.1 "sID").getD "") pr.2 ""
        else textContent pr.1) with htxt
      by_cases ht : jsTrim txt ≠ ""
      · rw [if_pos ht] at hx
        rcases List.mem_append.mp hx with hx' | hx'
        · exact hacc x hx'
        · have : x.text = jsTrim txt := by
            rcases List.mem_singleton.mp hx' with rfl
            rfl
          rw [this, jsTrim_idem]
          exact ht
      · rw [if_neg ht] at hx
        exact hacc x hx
    · simp only [hp, if_neg, if_false] at hx
      exact hacc x hx

theorem osisProcessBook_text_trim_ne (vid : String) (bookDiv : XmlNode) :
    ∀ rec ∈ (osisProcessBook vid bookDiv).1, jsTrim rec.text ≠ "" := by
  unfold osisProcessBook
  exact osisVerseStep_preserve _ _ _ _ ([], 0) (by simp)

/-- C6 (amended): verse-text retention differs per decoder: the OSIS decoder
retains only verses whose reconstructed text has a non-empty trim (and
stores it trimmed); the Simple-XML decoder retains exactly the verses whose
raw text content is a non-empty string, so whitespace-only text is kept
untrimmed; and the JSON decoder retains every source row regardless of its
text. -/
theorem c6_retention_by_decoder :
    (∀ (root : XmlNode) (dn : String) (now : Nat),
      ∀ rec ∈ (importFromOsisXml root dn now).verses, jsTrim rec.text ≠ "") ∧
    (∀ (root : XmlNode) (dn : String) (now : Nat),
      ∀ rec ∈ (importFromSimpleXml root dn now).verses, rec.text ≠ "") ∧
    (∀ (doc : JsonDoc) (cl : Nat) (dn : String) (now : Nat),
      (importFromJson doc cl dn now).verses.length = doc.verses.length) := by
  refine ⟨?_, ?_, ?_⟩
  · intro root dn now rec hrec
    have hv : (importFromOsisXml root dn now).verses =
        ((osisBookDivs root).foldl (fun acc b =>
          (acc.1 ++ (osisProcessBook (importFromOsisXml root dn
            now).version.id b).1,
           acc.2 ++ [(osisProcessBook (importFromOsisXml root dn
            now).version.id b).2])) ([], [])).1 := rfl
    rw [hv, pairFoldFst] at hrec
    exact foldl_append_mem _ _ _ [] (by simp)
      (fun b => osisProcessBook_text_trim_ne _ b) rec hrec
  · intro root dn now rec hrec
    have hv : (importFromSimpleXml root dn now).verses =
        (((docElems root).filter (fun el =>
          tagIn el ["book", "b", "biblebook"])).foldl (fun acc b =>
          (acc.1 ++ (simpleProcessBook (importFromSimpleXml root dn
            now).version.id b).1,
           acc.2 ++ (simpleProcessBook (importFromSimpleXml root dn
            now).version.id b).2)) ([], [])).1 := rfl
    rw [hv, pairFoldFst] at hrec
    exact foldl_append_mem _ _ _ [] (by simp)
      (fun b => simpleProcessBook_text_ne _ b) rec hrec
  · intro doc cl dn now
    show (doc.verses.map _).length = _
    rw [List.length_map]

/-- C6 (counterexample): the non-empty-trim retention claim fails outside
the OSIS decoder: the Simple-XML decoder keeps a verse whose text content is
a single space, storing it untrimmed even though its trimmed value is
empty. -/
theorem c6_counterexample :
    (importFromSimpleXml wsVerseDoc "NKJV_bible.xml" 3).verses.map
      (fun r => r.text) = [" "] ∧
    jsTrim " " = "" := ⟨rfl, rfl⟩

/-- C6 (witness): the per-decoder retention theorem applied to the concrete
milestone OSIS document and the concrete whitespace-verse simple document. -/
theorem c6_witness :
    (∀ rec ∈ (importFromOsisXml osisMilestoneDoc "kjv.xml" 3).verses,
      jsTrim rec.text ≠ "") ∧
    (∀ rec ∈ (importFromSimpleXml wsVerseDoc "NKJV_bible.xml" 3).verses,
      rec.text ≠ "") :=
  ⟨c6_retention_by_decoder.1 osisMilestoneDoc "kjv.xml" 3,
   c6_retention_by_decoder.2.1 wsVerseDoc "NKJV_bible.xml" 3⟩

theorem splitOnCharCore_no_sep (sep : Char) (cs : List Char)
    (h : ∀ ch ∈ cs, ch ≠ sep) : splitOnCharCore sep cs = [cs] := by
  induction cs with
  | nil => rfl
  | cons c rest ih =>
    rw [splitOnCharCore]
    rw [if_neg (h c (List.mem_cons_self c rest))]
    rw [ih (fun ch hch => h ch (List.mem_cons_of_mem c hch))]

theorem splitOnChar_digits (c : String)
    (hcd : c.data.all Char.isDigit = true) : splitOnChar ':' c = [c] := by
  unfold splitOnChar
  rw [splitOnCharCore_no_sep]
  · rfl
  · intro ch hch heq
    have := List.all_eq_true.mp hcd ch hch
    subst heq
    simp at this

theorem containsSub_colon_false (cs : List Char)
    (h : ∀ ch ∈ cs, ch ≠ ':') : containsSub cs [':'] = false := by
  induction cs with
  | nil => rfl
  | cons a t ih =>
    rw [containsSub]
    have ha : a ≠ ':' := h a (List.mem_cons_self a t)
    rw [ih (fun ch hch => h ch (List.mem_cons_of_mem a hch))]
    simp only [List.isPrefixOf, Bool.or_false, Bool.and_eq_false_iff]
    left
    simpa using Ne.symm ha

theorem strContains_digits_colon (c : String)
    (hcd : c.data.all Char.isDigit = true) : strContains c ":" = false := by
  show containsSub c.data [':'] = false
  apply containsSub_colon_false
  intro ch hch heq
  have := List.all_eq_true.mp hcd ch hch
  subst heq
  simp at this

theorem chapterVerseBlock_digits (t : String) (isIntro : Bool) (c : String)
    (mbs : List BibleBookRecord) (n : Nat)
    (hcne : c ≠ "") (hcd : c.data.all Char.isDigit = true)
    (hn : parseIntJS c = some n) :
    chapterVerseBlock t isIntro 2 [c] mbs =
      (decide (maxChaptersOf mbs < n) || (n == 0 && c.length == 1)) := by
  simp [chapterVerseBlock, splitOnChar_digits c hcd, hn, hcne, hcd]

theorem versionBlockCheck_single (t c : String) (vs : List BibleVersion)
    (hsp : jsEndsWithSpace t = false) :
    versionBlockCheck t [c] vs = false := by
  simp [versionBlockCheck, hsp]

/-- C9 (amended): for a non-deletion keystroke whose candidate value (fixed
by the smart transform) consists of a book word with at least one matching
book followed by one fully-typed numeric chapter token, and which passes the
character whitelist, the validator rejects the keystroke exactly when the
chapter exceeds the largest `chapterCount` among the matching books OR the
chapter token is the single digit `0`. -/
theorem c9_chapter_gate (oldVal t w c : String) (n : Nat)
    (books : List BibleBookRecord) (versions : List BibleVersion)
    (b0 : BibleBookRecord) (brest : List BibleBookRecord)
    (hlen : oldVal.length ≤ t.length)
    (hst : getSmartTransform t = t)
    (hsplit : jsSplitWs (jsTrimStart t) = [w, c])
    (hw : isNum123 w = false)
    (hcne : c ≠ "")
    (hcd : c.data.all Char.isDigit = true)
    (hn : parseIntJS c = some n)
    (hmb : matchingBooksFor books w = b0 :: brest)
    (hsp : jsEndsWithSpace t = false)
    (hwl : whitelistOk t = true) :
    (validateKeystroke oldVal t books versions = none ↔
      (maxChaptersOf (matchingBooksFor books w) < n ∨
        (n = 0 ∧ c.length = 1))) := by
  unfold validateKeystroke
  rw [if_neg (Nat.not_lt.mpr hlen)]
  simp only [hst, hsplit, List.headD_cons, hw, Bool.false_and,
    Bool.false_eq_true, if_false, List.length_cons, List.length_nil,
    List.drop_succ_cons, List.drop_nil, List.drop_zero, hmb]
  rw [show (0 + 1 + 1 : Nat) = 2 from rfl]
  rw [chapterVerseBlock_digits t false c (b0 :: brest) n hcne hcd hn]
  rw [versionBlockCheck_single t c versions hsp]
  simp only [List.isEmpty_cons, Bool.false_eq_true, if_false, hwl,
    Bool.not_true]
  have hcond : ((decide (maxChaptersOf (b0 :: brest) < n) ||
      (n == 0 && c.length == 1)) = true) ↔
      (maxChaptersOf (b0 :: brest) < n ∨ (n = 0 ∧ c.length = 1)) := by
    simp
  by_cases hq : maxChaptersOf (b0 :: brest) < n ∨ (n = 0 ∧ c.length = 1)
  · rw [if_pos (hcond.mpr hq)]
    simpa using hq
  · rw [if_neg (fun hh => hq (hcond.mp hh))]
    have h2 : (false || !false && decide ((2 : Nat) > 1)) = true := by decide
    simp only [h2, Bool.not_true, Bool.and_false, Bool.false_and,
      Bool.false_eq_true, if_false]
    simp [hq]

/-- C9 (counterexample): the validator's rejection is not exactly "chapter
exceeds the maximum chapterCount": the keystroke producing `Matthew 0` is
rejected although chapter 0 does not exceed Matthew's 28 chapters. -/
theorem c9_counterexample :
    validateKeystroke "Matthew " "Matthew 0" [matthewBook] [] = none ∧
    ¬ (maxChaptersOf (matchingBooksFor [matthewBook] "Matthew") < 0) :=
  ⟨rfl, by decide⟩

/-- C9 (witness): the chapter gate evaluated against a book with 28
chapters — a keystroke typing chapter 29 is rejected and one typing chapter
28 is accepted. -/
theorem c9_witness :
    validateKeystroke "Matthew 2" "Matthew 29" [matthewBook] [] = none ∧
    validateKeystroke "Matthew 25" "Matthew 28" [matthewBook] [] ≠ none := by
  constructor
  · exact (c9_chapter_gate "Matthew 2" "Matthew 29" "Matthew" "29" 29
      [matthewBook] [] matthewBook [] (by decide) rfl rfl rfl (by decide)
      rfl rfl rfl rfl rfl).mpr (Or.inl (by decide))
  · intro h
    have := (c9_chapter_gate "Matthew 25" "Matthew 28" "Matthew" "28" 28
      [matthewBook] [] matthewBook [] (by decide) rfl rfl rfl (by decide)
      rfl rfl rfl rfl rfl).mp h
    exact absurd this (by decide)

theorem strAppendEmpty (s : String) : s ++ "" = s := by
  cases s with
  | mk data => exact congrArg String.mk (List.append_nil data)

/-- C10 (amended): in the chapter phase — a resolved book followed by one
purely numeric colon-free token `c` — the Suggestion Engine returns exactly
five chapter suggestions whose texts are the book name followed by the
decimal numeral of the number `c` parses to, then that numeral with the
digits 1–4 concatenated (it concatenates digits onto the parsed number
rather than enumerating following chapters); for a token without leading
zeros this is the book name followed by `c` itself. -/
theorem c10_chapter_suggestions (input w c : String) (n : Nat)
    (books : List BibleBookRecord) (versions : List BibleVersion)
    (b0 : BibleBookRecord) (brest : List BibleBookRecord)
    (hsplit : jsSplitWs (jsTrimStart input) = [w, c])
    (hw : isNum123 w = false)
    (hcne : c ≠ "")
    (hcd : c.data.all Char.isDigit = true)
    (hn : parseIntJS c = some n)
    (hmb : matchingBooksFor books w = b0 :: brest)
    (hsp : jsEndsWithSpace input = false) :
    getSuggestions input books versions =
      [⟨b0.name ++ " " ++ toString n, SuggestionType.chapter, none⟩,
       ⟨b0.name ++ " " ++ toString n ++ "1", SuggestionType.chapter, none⟩,
       ⟨b0.name ++ " " ++ toString n ++ "2", SuggestionType.chapter, none⟩,
       ⟨b0.name ++ " " ++ toString n ++ "3", SuggestionType.chapter, none⟩,
       ⟨b0.name ++ " " ++ toString n ++ "4", SuggestionType.chapter, none⟩]
    := by
  have hne : ¬ (jsTrimStart input = "") := by
    intro h0
    rw [h0] at hsplit
    have : (jsSplitWs "").length = 2 := by rw [hsplit]; rfl
    simp [jsSplitWs, splitWsGo] at this
  unfold getSuggestions
  rw [if_neg hne]
  simp only [hsplit, List.headD_cons, hw, Bool.false_and, Bool.false_eq_true,
    if_false, List.getD, List.length_cons, List.length_nil,
    List.drop_succ_cons, List.drop_nil, List.drop_zero, hmb, List.head?_cons,
    hsp, Bool.and_false]
  rw [show ((0 : Nat) + 1 == 0 && !false) = false from by decide]
  simp only [Bool.false_eq_true, if_false]
  rw [show (decide ((0 : Nat) + 1 ≥ 2) || false) = false from by decide]
  simp only [Bool.false_and, Bool.false_eq_true, if_false]
  rw [strContains_digits_colon c hcd]
  simp only [Bool.false_eq_true, if_false]
  rw [if_pos hcne, hn]
  rw [show List.range 5 = [0, 1, 2, 3, 4] from rfl]
  simp only [List.map_cons, List.map_nil, List.take, strAppendEmpty]
  norm_num
  exact ⟨rfl, rfl, rfl, rfl⟩

/-- C10 (counterexample): the claimed texts — the typed token itself with
digits appended — fail when the token has leading zeros: for `Matthew 007`
the suggestions use the parsed number 7, not the token `007`. -/
theorem c10_counterexample :
    (getSuggestions "Matthew 007" [matthewBook] []).map (fun s => s.text) =
      ["Matthew 7", "Matthew 71", "Matthew 72", "Matthew 73",
       "Matthew 74"] ∧
    (getSuggestions "Matthew 007" [matthewBook] []).map (fun s => s.text) ≠
      ["Matthew 007", "Matthew 0071", "Matthew 0072", "Matthew 0073",
       "Matthew 0074"] :=
  ⟨rfl, by decide⟩

/-- C10 (witness): the chapter-phase theorem evaluated on the claim's own
example `Matthew 3`. -/
theorem c10_witness :
    getSuggestions "Matthew 3" [matthewBook] [] =
      [⟨"Matthew 3", SuggestionType.chapter, none⟩,
       ⟨"Matthew 31", SuggestionType.chapter, none⟩,
       ⟨"Matthew 32", SuggestionType.chapter, none⟩,
       ⟨"Matthew 33", SuggestionType.chapter, none⟩,
       ⟨"Matthew 34", SuggestionType.chapter, none⟩] :=
  c10_chapter_suggestions "Matthew 3" "Matthew" "3" 3 [matthewBook] []
    matthewBook [] rfl rfl (by decide) rfl rfl rfl rfl

end Present
